import Mathlib

/-!
HOD appointment booking: lifecycle and slot-conflict rules.

A shallow embedding of `src/routes/appointments.js` and of the schema in
`src/models/Appointment.js`.

Conventions of the embedding.

* The document store is a list of schema-valid appointments together with the
  next identifier to hand out; every handler is a function from the store, the
  authenticated caller and the request to the new store and the response.
* A request field is `Option String`: `none` is a field that is absent from
  the body (`undefined`), `some ""` is the empty string.  Both are falsy in
  JavaScript, every other string is truthy.
* A `Date` is its number of milliseconds since the epoch.  A date field of a
  request is kept together with the outcome of `new Date(..)` on it.  Local
  time follows ECMAScript: a `TimeZone` gives the offset in force at a UTC time
  and at a local time, and `timeClip` turns a time value out of range into an
  Invalid Date.
* The `status` of a status request is a string or is absent; a body whose
  status is JSON `null` is not covered.  A stored document may lack a status;
  `hydrate` is the document as a query returns it, with the schema default.
  `isHOD`, which guards the status handler, is not part of `src/` and the
  handler is embedded without it.
* The in-memory Mongoose document is `Draft`; `validate` is the schema
  validation run by `save()`, the `trim: true` setters are `jsTrim`.
* `createdAt` / `updatedAt` and the `populate` join of the response are not
  part of the embedding.
-/

namespace HodApp

/-! ## Data model (`src/models/Appointment.js`) -/

/-- The `enum` of the `status` path. -/
inductive Status where
  | pending
  | approved
  | rejected
  | completed
  | cancelled
  deriving DecidableEq, Repr

/-- The active statuses, those of `$in: ['pending', 'approved']`. -/
def Status.isActive : Status → Bool
  | .pending => true
  | .approved => true
  | _ => false

/-- The role attached to the authenticated caller (`req.user.role`). -/
inductive Role where
  | student
  | hod
  deriving DecidableEq, Repr

/-- The authenticated caller `req.user`; `studentId` may be missing. -/
structure User where
  _id : Nat
  name : String
  email : String
  studentId : Option String
  role : Role
  deriving DecidableEq, Repr

/-- A stored appointment document.  The `status` path is not `required`: it is
`none` in a document whose status has been unset. -/
structure Appointment where
  _id : Nat
  student : Nat
  studentName : String
  studentEmail : String
  studentId : String
  date : Int
  time : String
  purpose : String
  status : Option Status
  notes : Option String
  hodNotes : Option String
  deriving DecidableEq, Repr

/-- The filter `status: { $in: ['pending', 'approved'] }` on a stored document;
a document without a status does not match. -/
def Appointment.isActive (a : Appointment) : Bool :=
  match a.status with
  | some st => st.isActive
  | none => false

/-- A document as a query hands it to the handler: the schema default
`'pending'` stands in for a status that is not stored. -/
def Appointment.hydrate (a : Appointment) : Appointment :=
  { a with status := some (a.status.getD Status.pending) }

/-- The failures a handler answers with: `authorizationError` is a 403,
`notFoundError` the 404, `slotConflictError` the 400 "This time slot is already
booked", `invalidStateError` the 400 "Can only update pending appointments",
`storeError` the 500 of the `catch` block (cast and validation errors). -/
inductive Failure where
  | authorizationError
  | notFoundError
  | slotConflictError
  | invalidStateError
  | storeError
  deriving DecidableEq, Repr

/-- The collection: its documents in insertion order and the next fresh id. -/
structure Store where
  docs : List Appointment
  nextId : Nat
  deriving DecidableEq, Repr

/-- The collection before any request. -/
def Store.empty : Store := ⟨[], 0⟩

deriving instance DecidableEq for Except

/-! ## JavaScript values -/

/-- JavaScript truthiness of a string-or-undefined value. -/
def truthy : Option String → Bool
  | some s => s != ""
  | none => false

/-- A date field of a request with the result of `new Date(..)` on it: `absent`
is `undefined` or the empty string (falsy), `invalid` a non-empty string that
does not parse (truthy, Invalid Date), `valid ms` a string that parses. -/
inductive DateField where
  | absent
  | invalid
  | valid (ms : Int)
  deriving DecidableEq, Repr

/-- Truthiness of the raw date field. -/
def DateField.truthy : DateField → Bool
  | .absent => false
  | _ => true

/-- The value of `new Date(date)`; `none` is an Invalid Date. -/
def newDate : DateField → Option Int
  | .valid ms => some ms
  | _ => none

/-- White space as removed by `String.prototype.trim`. -/
def isJsWhitespace (c : Char) : Bool :=
  let n := c.toNat
  n == 9 || n == 10 || n == 11 || n == 12 || n == 13 || n == 32 || n == 160 ||
  n == 5760 || (8192 ≤ n && n ≤ 8202) || n == 8232 || n == 8233 || n == 8239 ||
  n == 8287 || n == 12288 || n == 65279

/-- The method `String.prototype.trim`, the setter of a `trim: true` path. -/
def jsTrim (s : String) : String :=
  ⟨((s.data.dropWhile isJsWhitespace).reverse.dropWhile isJsWhitespace).reverse⟩

/-- The method `String.prototype.padStart` with a one-character filler. -/
def padStart (s : String) (n : Nat) (c : Char) : String :=
  ⟨List.replicate (n - s.length) c ++ s.data⟩

/-! ## Mongoose documents -/

/-- The `status` field of a request body, and the `status` path of a document
in memory: `absent` is `undefined` (no status in the body, the path unset),
`valid st` one of the enum values, `invalid` any other string. -/
inductive StatusField where
  | absent
  | valid (st : Status)
  | invalid
  deriving DecidableEq, Repr

/-- The validators of the `status` path: the path is not `required` and the
`enum` validator lets `undefined` pass, so an unset status is stored as no
status; a string outside the enum is rejected. -/
def StatusField.check : StatusField → Option (Option Status)
  | .absent => some none
  | .valid st => some (some st)
  | .invalid => none

/-- The `status` path of a loaded document. -/
def StatusField.ofStored : Option Status → StatusField
  | some st => .valid st
  | none => .absent

/-- An in-memory document before `save()`: a path is `none` when it is unset or
holds a value that failed to cast. -/
structure Draft where
  _id : Nat
  student : Nat
  studentName : String
  studentEmail : String
  studentId : String
  date : Option Int
  time : Option String
  purpose : Option String
  status : StatusField
  notes : Option String
  hodNotes : Option String
  deriving DecidableEq, Repr

/-- A document loaded from the collection. -/
def Appointment.toDraft (a : Appointment) : Draft :=
  { _id := a._id, student := a.student, studentName := a.studentName,
    studentEmail := a.studentEmail, studentId := a.studentId, date := some a.date,
    time := some a.time, purpose := some a.purpose,
    status := StatusField.ofStored a.status,
    notes := a.notes, hodNotes := a.hodNotes }

/-- Schema validation of `save()`: the `required: true` paths are present (a
required string is non-empty), the date is a valid date and the status, when
there is one, is in the enum. -/
def validate (d : Draft) : Option Appointment :=
  if d.studentName != "" && d.studentEmail != "" && d.studentId != "" then
    match d.date, d.time, d.purpose, d.status.check with
    | some date, some time, some purpose, some status =>
      if time != "" && purpose != "" then
        some { _id := d._id, student := d.student, studentName := d.studentName,
               studentEmail := d.studentEmail, studentId := d.studentId, date := date,
               time := time, purpose := purpose, status := status, notes := d.notes,
               hodNotes := d.hodNotes }
      else none
    | _, _, _, _ => none
  else none

/-- The query `Appointment.findById(id)`: the stored document with that id, as
loaded (`hydrate`). -/
def findById (s : Store) (id : Nat) : Option Appointment :=
  (s.docs.find? (fun r => r._id == id)).map Appointment.hydrate

/-- The query `Appointment.findOne({ date, time, status: { $in: ['pending',
'approved'] } })` of the create handler. -/
def findActiveAt (s : Store) (date : Int) (time : Option String) : Option Appointment :=
  s.docs.find? (fun r => r.date == date && some r.time == time && r.isActive)

/-- The query of the update handler: as `findActiveAt`, with `_id: { $ne: id }`. -/
def findActiveAtExcept (s : Store) (date : Int) (time : Option String) (id : Nat) :
    Option Appointment :=
  s.docs.find? (fun r => r.date == date && some r.time == time && r.isActive && r._id != id)

/-- Writing back a loaded document with `save()`: the stored document with that
id is replaced by the document in memory (a status filled in by the default on
loading is written with it). -/
def Store.replace (s : Store) (a : Appointment) : Store :=
  { s with docs := s.docs.map (fun r => if r._id = a._id then a else r) }

/-- Inserting a new document. -/
def Store.insert (s : Store) (a : Appointment) : Store :=
  { docs := s.docs ++ [a], nextId := s.nextId + 1 }

/-- The call `Appointment.findByIdAndDelete(id)`. -/
def Store.remove (s : Store) (id : Nat) : Store :=
  { s with docs := s.docs.filter (fun r => r._id != id) }

/-! ## Handlers (`src/routes/appointments.js`) -/

/-- The body of a create or update request. -/
structure Body where
  date : DateField
  time : Option String
  purpose : Option String
  notes : Option String
  deriving DecidableEq, Repr

/-- The body of a status request. -/
structure StatusBody where
  status : StatusField
  hodNotes : Option String
  deriving DecidableEq, Repr

/-- The document built by `new Appointment({...})` in the create handler. -/
def newAppointment (s : Store) (user : User) (body : Body) : Draft :=
  { _id := s.nextId,
    student := user._id,
    studentName := user.name,
    studentEmail := user.email,
    studentId := if truthy user.studentId then user.studentId.getD "N/A" else "N/A",
    date := newDate body.date,
    time := body.time,
    purpose := body.purpose.map jsTrim,
    status := .valid Status.pending,
    notes := body.notes.map jsTrim,
    hodNotes := none }

/-- The handler `router.post('/')`: create appointment. -/
def createAppointment (s : Store) (user : User) (body : Body) :
    Store × Except Failure Appointment :=
  if user.role = Role.hod then (s, .error .authorizationError)
  else
    match newDate body.date with
    | none => (s, .error .storeError)
    | some d =>
      match findActiveAt s d body.time with
      | some _ => (s, .error .slotConflictError)
      | none =>
        match validate (newAppointment s user body) with
        | none => (s, .error .storeError)
        | some a => (s.insert a, .ok a)

/-- The handler `router.get('/:id')`: get single appointment. -/
def getAppointment (s : Store) (user : User) (id : Nat) : Except Failure Appointment :=
  match findById s id with
  | none => .error .notFoundError
  | some appointment =>
    if user.role = Role.student ∧ appointment.student ≠ user._id then
      .error .authorizationError
    else .ok appointment

/-- The assignments of the status handler to the loaded document:
`appointment.status = status` whatever the body holds, `undefined` included. -/
def applyStatus (appointment : Appointment) (body : StatusBody) : Draft :=
  { appointment.toDraft with
    status := body.status,
    hodNotes := if truthy body.hodNotes then body.hodNotes.map jsTrim
                else appointment.hodNotes }

/-- The handler `router.patch('/:id/status')`: update appointment status.  The
restriction to department heads is the `isHOD` middleware in front of it. -/
def setStatus (s : Store) (id : Nat) (body : StatusBody) :
    Store × Except Failure Appointment :=
  match findById s id with
  | none => (s, .error .notFoundError)
  | some appointment =>
    match validate (applyStatus appointment body) with
    | none => (s, .error .storeError)
    | some a => (s.replace a, .ok a)

/-- The condition `time && time !== appointment.time` of the update handler. -/
def timeChanged (appointment : Appointment) (body : Body) : Bool :=
  truthy body.time && body.time != some appointment.time

/-- The expression `date ? new Date(date) : appointment.date`. -/
def effectiveDate (appointment : Appointment) (body : Body) : Option Int :=
  if body.date.truthy then newDate body.date else some appointment.date

/-- The four conditional assignments of the update handler. -/
def applyUpdate (appointment : Appointment) (body : Body) : Draft :=
  { appointment.toDraft with
    date := if body.date.truthy then newDate body.date else some appointment.date,
    time := if truthy body.time then body.time else some appointment.time,
    purpose := if truthy body.purpose then body.purpose.map jsTrim
               else some appointment.purpose,
    notes := (match body.notes with
      | some n => some (jsTrim n)
      | none => appointment.notes) }

/-- The tail of the update handler: assign, `save()`, respond. -/
def saveUpdate (s : Store) (appointment : Appointment) (body : Body) :
    Store × Except Failure Appointment :=
  match validate (applyUpdate appointment body) with
  | none => (s, .error .storeError)
  | some a => (s.replace a, .ok a)

/-- The handler `router.put('/:id')`: update appointment. -/
def updateAppointment (s : Store) (user : User) (id : Nat) (body : Body) :
    Store × Except Failure Appointment :=
  match findById s id with
  | none => (s, .error .notFoundError)
  | some appointment =>
    if user.role = Role.student ∧ appointment.student ≠ user._id then
      (s, .error .authorizationError)
    else if user.role = Role.student ∧ appointment.status ≠ some Status.pending then
      (s, .error .invalidStateError)
    else if timeChanged appointment body then
      match effectiveDate appointment body with
      | none => (s, .error .storeError)
      | some d =>
        match findActiveAtExcept s d body.time appointment._id with
        | some _ => (s, .error .slotConflictError)
        | none => saveUpdate s appointment body
    else saveUpdate s appointment body

/-- The handler `router.delete('/:id')`: delete appointment. -/
def deleteAppointment (s : Store) (user : User) (id : Nat) : Store × Except Failure Unit :=
  match findById s id with
  | none => (s, .error .notFoundError)
  | some appointment =>
    if user.role = Role.student ∧ appointment.student ≠ user._id then
      (s, .error .authorizationError)
    else (s.remove id, .ok ())

/-- Milliseconds in a day. -/
def msPerDay : Int := 86400000

/-- The local time zone of the server as ECMAScript's `LocalTZA` gives it: the
offset in milliseconds in force at a UTC time value, and the offset in force at
a local time value.  With daylight saving neither function is constant. -/
structure TimeZone where
  atUtc : Int → Int
  atLocal : Int → Int

/-- A zone that keeps one offset all year. -/
def TimeZone.fixed (offset : Int) : TimeZone :=
  { atUtc := fun _ => offset, atLocal := fun _ => offset }

/-- The largest time value a `Date` holds, 100,000,000 days from the epoch. -/
def maxTime : Int := 8640000000000000

/-- The operation `TimeClip`: a time value out of range gives an Invalid Date. -/
def timeClip (t : Int) : Option Int :=
  if -maxTime ≤ t ∧ t ≤ maxTime then some t else none

/-- The local time value of the midnight that starts the local day of `d`:
`MakeDate(Day(LocalTime(d)), 0)`. -/
def localMidnight (tz : TimeZone) (d : Int) : Int :=
  let t := d + tz.atUtc d
  t - t % msPerDay

/-- The date `startDate` after `setHours(0, 0, 0, 0)`: local midnight taken back
to UTC and clipped; `none` is an Invalid Date. -/
def startOfDay (tz : TimeZone) (d : Int) : Option Int :=
  let m := localMidnight tz d
  timeClip (m - tz.atLocal m)

/-- The date `endDate` after `setHours(23, 59, 59, 999)`: the last millisecond
of the local day taken back to UTC and clipped. -/
def endOfDay (tz : TimeZone) (d : Int) : Option Int :=
  let e := localMidnight tz d + (msPerDay - 1)
  timeClip (e - tz.atLocal e)

/-- One entry of the availability answer. -/
structure Slot where
  time : String
  available : Bool
  deriving DecidableEq, Repr

/-- The label of the loop body: the hour padded to two digits, then `:00`. -/
def hourLabel (hour : Nat) : String :=
  padStart (toString hour) 2 '0' ++ ":00"

/-- The `time` values of the documents found by the query `date: { $gte: lo,
$lte: hi }, status: { $in: ['pending', 'approved'] }`. -/
def bookedTimes (s : Store) (lo hi : Int) : List String :=
  (s.docs.filter (fun r => decide (lo ≤ r.date) && decide (r.date ≤ hi) && r.isActive)).map
    (fun slot => slot.time)

/-- The handler `router.get('/availability/:date')`: the slots from 9 to 16
o'clock, each with whether it is free.  The argument is the time value of
`new Date(dateStr)`, `none` for an Invalid Date (a time value out of range is
one).  An Invalid Date, as parsed or after `setHours`, fails the query. -/
def getAvailability (tz : TimeZone) (s : Store) (date : Option Int) :
    Except Failure (List Slot) :=
  match date.bind timeClip with
  | none => .error .storeError
  | some d =>
    match startOfDay tz d, endOfDay tz d with
    | some lo, some hi =>
      .ok ((List.range' 9 8).map (fun hour =>
        { time := hourLabel hour,
          available := !(bookedTimes s lo hi).contains (hourLabel hour) }))
    | _, _ => .error .storeError

/-! ## Sequences of requests and the slot invariant -/

/-- Slot exclusivity: for every date and time label at most one record of the
store has that date, that time and a pending or approved status. -/
def SlotExclusive (s : Store) : Prop :=
  ∀ (D : Int) (T : String),
    (s.docs.filter (fun r => r.date == D && r.time == T && r.isActive)).length ≤ 1

/-- Two records that occupy the same slot while both are pending or approved. -/
def Appointment.clashes (a b : Appointment) : Prop :=
  a.date = b.date ∧ a.time = b.time ∧ a.isActive = true ∧ b.isActive = true

/-- Two records with different ids that do not clash. -/
def Appointment.compatible (a b : Appointment) : Prop :=
  a._id ≠ b._id ∧ ¬ a.clashes b

/-- The bookkeeping invariant of the collection: ids are pairwise different and
below the next id, no two records clash, and every record has a stored status. -/
def Store.Consistent (s : Store) : Prop :=
  s.docs.Pairwise Appointment.compatible ∧ (∀ r ∈ s.docs, r._id < s.nextId) ∧
    ∀ r ∈ s.docs, r.status ≠ none

/-- What the collection guarantees of its documents: every id is below the
next id and every document passes the schema validation. -/
def Store.WellFormed (s : Store) : Prop :=
  (∀ r ∈ s.docs, r._id < s.nextId) ∧ ∀ r ∈ s.docs, validate r.toDraft = some r

/-- A request that writes: create, update, status or delete. -/
inductive Op where
  | create (user : User) (body : Body)
  | update (user : User) (id : Nat) (body : Body)
  | status (id : Nat) (body : StatusBody)
  | delete (user : User) (id : Nat)
  deriving DecidableEq, Repr

/-- The store after one request. -/
def step (s : Store) : Op → Store
  | .create user body => (createAppointment s user body).1
  | .update user id body => (updateAppointment s user id body).1
  | .status id body => (setStatus s id body).1
  | .delete user id => (deleteAppointment s user id).1

/-- The store after a sequence of requests, executed one after another. -/
def run (s : Store) (ops : List Op) : Store :=
  ops.foldl step s

/-- The requests that stay out of the gaps of the slot check.  A request that
is refused is guarded, and so are create and delete.  A status request that is
carried out is guarded when it names one of the five statuses and does not take
the record from a terminal status to an active one.  An update that is carried
out is guarded unless it gives a pending or approved record another date while
its time is omitted, empty or unchanged. -/
def Op.guarded (s : Store) : Op → Bool
  | .create _ _ => true
  | .delete _ _ => true
  | .status id body =>
    match (setStatus s id body).2 with
    | .error _ => true
    | .ok _ =>
      match findById s id, body.status with
      | some r, .valid st => !st.isActive || r.isActive
      | _, _ => false
  | .update user id body =>
    match (updateAppointment s user id body).2 with
    | .error _ => true
    | .ok _ =>
      match findById s id with
      | some r => timeChanged r body || effectiveDate r body == some r.date || !r.isActive
      | none => false

/-- Every request of the sequence is guarded in the store it is issued in. -/
def allGuarded : Store → List Op → Bool
  | _, [] => true
  | s, op :: ops => op.guarded s && allGuarded (step s op) ops

/-! ## Sample data used by the concrete checks -/

/-- 2025-03-10T00:00:00.000Z in milliseconds. -/
def march10 : Int := 1741564800000

/-- 2025-03-11T00:00:00.000Z in milliseconds. -/
def march11 : Int := 1741651200000

/-- A student with a student id. -/
def ann : User := { _id := 1, name := "Ann", email := "ann@uni.example", studentId := some "S-001",
                    role := Role.student }

/-- A student whose identity carries no student id. -/
def bob : User := { _id := 2, name := "Bob", email := "bob@uni.example", studentId := none,
                    role := Role.student }

/-- A request for 2025-03-10 at 09:00. -/
def nineOnMarch10 : Body :=
  { date := .valid march10, time := some "09:00", purpose := some "Thesis", notes := none }

/-- A request for 2025-03-11 at 09:00. -/
def nineOnMarch11 : Body :=
  { date := .valid march11, time := some "09:00", purpose := some "Grades", notes := none }

/-- The collection after Ann booked 2025-03-10 at 09:00. -/
def annBooked : Store := (createAppointment Store.empty ann nineOnMarch10).1

/-- The record of Ann's booking. -/
def annRecord : Appointment :=
  { _id := 0, student := 1, studentName := "Ann", studentEmail := "ann@uni.example",
    studentId := "S-001", date := march10, time := "09:00", purpose := "Thesis",
    status := some Status.pending, notes := none, hodNotes := none }

/-- The collection after the department head approved Ann's booking. -/
def annApproved : Store := (setStatus annBooked 0 { status := .valid Status.approved, hodNotes := none }).1

/-- An update that supplies a purpose and notes with surrounding blanks. -/
def paddedUpdate : Body :=
  { date := .absent, time := none, purpose := some "  Viva  ", notes := some " bring draft " }

/-- An update that supplies an empty purpose. -/
def emptyPurposeUpdate : Body :=
  { date := .absent, time := none, purpose := some "", notes := none }

/-- A create request whose purpose and notes carry surrounding blanks. -/
def paddedCreate : Body :=
  { date := .valid march10, time := some "09:00", purpose := some " Thesis ", notes := some " n " }

/-- The collection after Ann booked 2025-03-10 and Bob 2025-03-11, both at 09:00. -/
def twoBooked : Store := (createAppointment annBooked bob nineOnMarch11).1

/-- Bob's update: move to 2025-03-10, time not supplied. -/
def moveToMarch10 : Body :=
  { date := .valid march10, time := none, purpose := none, notes := none }

/-- Bob's record after the move. -/
def bobMoved : Appointment :=
  { _id := 1, student := 2, studentName := "Bob", studentEmail := "bob@uni.example",
    studentId := "N/A", date := march10, time := "09:00", purpose := "Grades",
    status := some Status.pending, notes := none, hodNotes := none }

/-- A request for 2025-03-10T10:00:00.000Z as the date, at 09:00. -/
def nineOnMarch10Late : Body :=
  { date := .valid (march10 + 36000000), time := some "09:00", purpose := some "Thesis",
    notes := none }

/-- The requests: Ann books, her booking is rejected, Bob books the freed slot,
Ann's booking is approved. -/
def reactivation : List Op :=
  [.create ann nineOnMarch10,
   .status 0 { status := .valid Status.rejected, hodNotes := none },
   .create bob nineOnMarch10,
   .status 0 { status := .valid Status.approved, hodNotes := none }]

/-- The requests: Ann books 2025-03-10, Bob books 2025-03-11, Bob moves his
booking to 2025-03-10 without supplying a time. -/
def dateOnlyMove : List Op :=
  [.create ann nineOnMarch10, .create bob nineOnMarch11, .update bob 1 moveToMarch10]

/-- The requests: Ann books, Bob books the next day, Bob tries to move Ann's
booking (refused), Bob moves his own booking to 2025-03-10 at 10:00, Ann's
booking is approved, Bob deletes his. -/
def guardedSession : List Op :=
  [.create ann nineOnMarch10, .create bob nineOnMarch11,
   .update bob 0 moveToMarch10,
   .update bob 1 { date := .valid march10, time := some "10:00", purpose := none, notes := none },
   .status 0 { status := .valid Status.approved, hodNotes := some "ok" },
   .delete bob 1]

/-- A status request whose body has no `status`. -/
def noStatus : StatusBody := { status := .absent, hodNotes := none }

/-- An update with an empty body. -/
def emptyUpdate : Body := { date := .absent, time := none, purpose := none, notes := none }

/-- The requests: Ann books, a status request without a status unsets the
status of her booking, Bob books the slot, Ann's empty update writes her
booking back. -/
def unsetThenRebook : List Op :=
  [.create ann nineOnMarch10, .status 0 noStatus, .create bob nineOnMarch10,
   .update ann 0 emptyUpdate]

/-- UTC all year. -/
def utc : TimeZone := TimeZone.fixed 0

/-- 2025-03-30T00:00:00.000Z in milliseconds. -/
def march30 : Int := 1743292800000

/-- A zone one hour ahead of UTC until 2025-03-30T01:00Z (02:00 local) and two
hours ahead from then on. -/
def springForward : TimeZone :=
  { atUtc := fun t => if t < 1743296400000 then 3600000 else 7200000,
    atLocal := fun t => if t < 1743300000000 then 3600000 else 7200000 }

/-! ## Basic facts about documents and queries -/

theorem ofStored_of_check {f : StatusField} {st : Option Status} (h : f.check = some st) :
    StatusField.ofStored st = f := by
  cases f <;> simp only [StatusField.check, Option.some.injEq] at h
  · subst h; rfl
  · subst h; rfl
  · cases h

theorem check_ofStored (st : Option Status) : (StatusField.ofStored st).check = some st := by
  cases st <;> rfl

theorem ofStored_injective {a b : Option Status}
    (h : StatusField.ofStored a = StatusField.ofStored b) : a = b := by
  have ha := check_ofStored a
  rw [h, check_ofStored] at ha
  exact (Option.some.inj ha).symm

theorem ofStored_eq_valid (x : Option Status) (st : Status) :
    StatusField.ofStored x = StatusField.valid st ↔ x = some st := by
  cases x <;> simp [StatusField.ofStored]

theorem ofStored_inj (x y : Option Status) :
    StatusField.ofStored x = StatusField.ofStored y ↔ x = y :=
  ⟨ofStored_injective, fun h => by rw [h]⟩

theorem toDraft_of_validate {d : Draft} {a : Appointment} (h : validate d = some a) :
    a.toDraft = d := by
  unfold validate at h
  split at h
  · split at h
    · rename_i date time purpose status hd ht hp hs
      split at h
      · cases h
        cases d
        simp only at hd ht hp hs
        simp only [Appointment.toDraft, ofStored_eq_valid, ofStored_inj, hd, ht, hp, ofStored_of_check hs]
      · cases h
    · cases h
  · cases h

theorem toDraft_injective {a b : Appointment} (h : a.toDraft = b.toDraft) : a = b := by
  cases a; cases b
  simp only [Appointment.toDraft, ofStored_eq_valid, ofStored_inj, Draft.mk.injEq, Option.some.injEq] at h
  simp only [Appointment.mk.injEq]
  refine ⟨h.1, h.2.1, h.2.2.1, h.2.2.2.1, h.2.2.2.2.1, h.2.2.2.2.2.1, h.2.2.2.2.2.2.1,
    h.2.2.2.2.2.2.2.1, h.2.2.2.2.2.2.2.2.1, h.2.2.2.2.2.2.2.2.2.1,
    h.2.2.2.2.2.2.2.2.2.2⟩

theorem hydrate_of_status {r : Appointment} (h : r.status ≠ none) : r.hydrate = r := by
  cases r with
  | mk _ _ _ _ _ _ _ _ status _ _ =>
    cases status with
    | none => exact absurd rfl h
    | some st => rfl

theorem hydrate_hydrate (r : Appointment) : r.hydrate.hydrate = r.hydrate :=
  hydrate_of_status (by simp [Appointment.hydrate])

theorem findById_stored {s : Store} {id : Nat} {r : Appointment} (h : findById s id = some r) :
    ∃ r0 ∈ s.docs, r0._id = id ∧ r = r0.hydrate := by
  unfold findById at h
  rw [Option.map_eq_some'] at h
  obtain ⟨r0, h0, h1⟩ := h
  exact ⟨r0, List.mem_of_find?_eq_some h0, by simpa using List.find?_some h0, h1.symm⟩

theorem findById_id {s : Store} {id : Nat} {r : Appointment} (h : findById s id = some r) :
    r._id = id := by
  obtain ⟨r0, _, h0, rfl⟩ := findById_stored h
  exact h0

theorem findById_status {s : Store} {id : Nat} {r : Appointment} (h : findById s id = some r) :
    r.status ≠ none := by
  obtain ⟨r0, _, _, rfl⟩ := findById_stored h
  simp [Appointment.hydrate]

theorem saveUpdate_cases (s : Store) (r : Appointment) (body : Body) :
    saveUpdate s r body = (s, .error .storeError) ∨
      ∃ a, validate (applyUpdate r body) = some a ∧ saveUpdate s r body = (s.replace a, .ok a) := by
  unfold saveUpdate
  cases h : validate (applyUpdate r body) with
  | none => exact Or.inl rfl
  | some a => exact Or.inr ⟨a, rfl, rfl⟩

/-! ## Authorization and state checks -/

/-- C4: for a record that exists, each of Get, Update and Delete answers with
the authorization error exactly when the caller is a student who is not the
owner of the record, and an Update or Delete refused this way leaves the store
as it was (Get never writes). -/
theorem authorization_iff_foreign_student (s : Store) (user : User) (id : Nat)
    (r : Appointment) (body : Body) (h : findById s id = some r) :
    (getAppointment s user id = .error .authorizationError ↔
        (user.role = Role.student ∧ r.student ≠ user._id)) ∧
    ((updateAppointment s user id body).2 = .error .authorizationError ↔
        (user.role = Role.student ∧ r.student ≠ user._id)) ∧
    ((deleteAppointment s user id).2 = .error .authorizationError ↔
        (user.role = Role.student ∧ r.student ≠ user._id)) ∧
    ((updateAppointment s user id body).2 = .error .authorizationError →
        (updateAppointment s user id body).1 = s) ∧
    ((deleteAppointment s user id).2 = .error .authorizationError →
        (deleteAppointment s user id).1 = s) := by
  have hupd : (updateAppointment s user id body).2 = .error .authorizationError ↔
      (user.role = Role.student ∧ r.student ≠ user._id) := by
    unfold updateAppointment
    rw [h]
    by_cases hc : user.role = Role.student ∧ r.student ≠ user._id
    · simp [hc]
    · simp only [hc, if_false, iff_false]
      split
      · simp
      · split
        · split
          · simp
          · split
            · simp
            · rcases saveUpdate_cases s r body with h1 | ⟨a, _, h1⟩ <;> simp [h1]
        · rcases saveUpdate_cases s r body with h1 | ⟨a, _, h1⟩ <;> simp [h1]
  have hdel : (deleteAppointment s user id).2 = .error .authorizationError ↔
      (user.role = Role.student ∧ r.student ≠ user._id) := by
    unfold deleteAppointment
    rw [h]
    by_cases hc : user.role = Role.student ∧ r.student ≠ user._id
    · simp [hc]
    · simp [hc]
  refine ⟨?_, hupd, hdel, ?_, ?_⟩
  · unfold getAppointment
    rw [h]
    by_cases hc : user.role = Role.student ∧ r.student ≠ user._id
    · simp [hc]
    · simp [hc]
  · intro h1
    have hc := hupd.1 h1
    unfold updateAppointment
    rw [h]
    simp [hc]
  · intro h1
    have hc := hdel.1 h1
    unfold deleteAppointment
    rw [h]
    simp [hc]

/-- C5: when a student updates an own record whose status is not pending, the
answer is the invalid-state error and the store is unchanged, whatever the body
holds; when the own record is pending the answer is never that error. -/
theorem update_own_record_state_check (s : Store) (user : User) (id : Nat)
    (r : Appointment) (body : Body) (h : findById s id = some r)
    (hrole : user.role = Role.student) (hown : r.student = user._id) :
    (r.status ≠ some Status.pending →
        updateAppointment s user id body = (s, .error .invalidStateError)) ∧
    (r.status = some Status.pending →
        (updateAppointment s user id body).2 ≠ .error .invalidStateError) := by
  constructor
  · intro hst
    unfold updateAppointment
    rw [h]
    simp [hrole, hown, hst]
  · intro hst
    unfold updateAppointment
    rw [h]
    simp only [hrole, hown, hst, ne_eq, not_true_eq_false, and_false, if_false]
    split
    · split
      · simp
      · split
        · simp
        · rcases saveUpdate_cases s r body with h1 | ⟨a, _, h1⟩ <;> simp [h1]
    · rcases saveUpdate_cases s r body with h1 | ⟨a, _, h1⟩ <;> simp [h1]

/-- C4, concrete check: Bob may neither read, update nor delete Ann's booking,
and the collection stays as it was. -/
theorem authorization_iff_foreign_student_witness :
    findById annBooked 0 = some annRecord ∧
      getAppointment annBooked bob 0 = .error .authorizationError ∧
      (updateAppointment annBooked bob 0 paddedUpdate).2 = .error .authorizationError ∧
      (deleteAppointment annBooked bob 0).2 = .error .authorizationError ∧
      (deleteAppointment annBooked bob 0).1 = annBooked :=
  have h := authorization_iff_foreign_student annBooked bob 0 annRecord paddedUpdate rfl
  ⟨rfl, h.1.2 ⟨rfl, by decide⟩, h.2.1.2 ⟨rfl, by decide⟩, h.2.2.1.2 ⟨rfl, by decide⟩,
    h.2.2.2.2 (h.2.2.1.2 ⟨rfl, by decide⟩)⟩

/-- C5, concrete check: once the department head has approved Ann's booking,
Ann's own update is refused with the invalid-state error. -/
theorem update_own_record_state_check_witness :
    findById annApproved 0 = some { annRecord with status := some Status.approved } ∧
      updateAppointment annApproved ann 0 paddedUpdate =
        (annApproved, .error .invalidStateError) ∧
      (updateAppointment annBooked ann 0 paddedUpdate).2 ≠ .error .invalidStateError :=
  ⟨rfl,
    (update_own_record_state_check annApproved ann 0 { annRecord with status := some Status.approved }
      paddedUpdate rfl rfl rfl).1 (by decide),
    (update_own_record_state_check annBooked ann 0 annRecord paddedUpdate rfl rfl rfl).2 rfl⟩

/-! ## Create -/

theorem findActiveAt_isSome_iff (s : Store) (d : Int) (time : Option String) :
    (findActiveAt s d time).isSome = true ↔
      ∃ r ∈ s.docs, r.date = d ∧ some r.time = time ∧ r.isActive = true := by
  unfold findActiveAt
  rw [List.find?_isSome]
  constructor
  · rintro ⟨r, hr, hp⟩
    simp only [Bool.and_eq_true, beq_iff_eq] at hp
    exact ⟨r, hr, hp.1.1, hp.1.2, hp.2⟩
  · rintro ⟨r, hr, h1, h2, h3⟩
    exact ⟨r, hr, by simp [h1, h2, h3]⟩

theorem createAppointment_cases (s : Store) (user : User) (body : Body) :
    (user.role = Role.hod ∧ createAppointment s user body = (s, .error .authorizationError)) ∨
    (user.role ≠ Role.hod ∧ newDate body.date = none ∧
      createAppointment s user body = (s, .error .storeError)) ∨
    (user.role ≠ Role.hod ∧ (∃ d, newDate body.date = some d ∧
      (findActiveAt s d body.time).isSome = true) ∧
      createAppointment s user body = (s, .error .slotConflictError)) ∨
    (user.role ≠ Role.hod ∧ (∃ d, newDate body.date = some d ∧ findActiveAt s d body.time = none) ∧
      validate (newAppointment s user body) = none ∧
      createAppointment s user body = (s, .error .storeError)) ∨
    (user.role ≠ Role.hod ∧ (∃ d, newDate body.date = some d ∧ findActiveAt s d body.time = none) ∧
      ∃ a, validate (newAppointment s user body) = some a ∧
        createAppointment s user body = (s.insert a, .ok a)) := by
  unfold createAppointment
  by_cases hr : user.role = Role.hod
  · exact Or.inl ⟨hr, by simp [hr]⟩
  · right
    cases hd : newDate body.date with
    | none => exact Or.inl ⟨hr, rfl, by simp [hr]⟩
    | some d =>
      right
      cases hf : findActiveAt s d body.time with
      | some x => exact Or.inl ⟨hr, ⟨d, rfl, by simp [hf]⟩, by simp [hr, hf]⟩
      | none =>
        right
        cases hv : validate (newAppointment s user body) with
        | none => exact Or.inl ⟨hr, ⟨d, rfl, hf⟩, rfl, by simp [hr, hf, hv]⟩
        | some a => exact Or.inr ⟨hr, ⟨d, rfl, hf⟩, a, rfl, by simp [hr, hf, hv]⟩

theorem newDate_eq_some {f : DateField} {d : Int} (h : newDate f = some d) : f = .valid d := by
  cases f <;> simp [newDate] at h
  rw [h]

/-- What a successful create stores: the document is the validated new document
and it is appended to the collection. -/
theorem createAppointment_ok {s s' : Store} {user : User} {body : Body} {a : Appointment}
    (h : createAppointment s user body = (s', .ok a)) :
    user.role ≠ Role.hod ∧ body.date = .valid a.date ∧ findActiveAt s a.date body.time = none ∧
      a.toDraft = newAppointment s user body ∧ s' = s.insert a := by
  rcases createAppointment_cases s user body with h1 | h1 | h1 | h1 | h1
  · rw [h1.2] at h; simp at h
  · rw [h1.2.2] at h; simp at h
  · rw [h1.2.2] at h; simp at h
  · rw [h1.2.2.2] at h; simp at h
  · obtain ⟨hr, ⟨d, hd, hf⟩, a', hv, hc⟩ := h1
    rw [hc] at h
    simp only [Prod.mk.injEq, Except.ok.injEq] at h
    obtain ⟨hs, ha⟩ := h
    subst ha
    have htd := toDraft_of_validate hv
    have hdate : some a'.date = newDate body.date := by
      have := congrArg Draft.date htd
      simpa [Appointment.toDraft, newAppointment] using this
    rw [hd] at hdate
    simp only [Option.some.injEq] at hdate
    subst hdate
    exact ⟨hr, newDate_eq_some hd, hf, htd, hs.symm⟩

theorem createAppointment_error {s : Store} {user : User} {body : Body} {e : Failure}
    (h : (createAppointment s user body).2 = .error e) : (createAppointment s user body).1 = s := by
  rcases createAppointment_cases s user body with h1 | h1 | h1 | h1 | h1
  · rw [h1.2]
  · rw [h1.2.2]
  · rw [h1.2.2]
  · rw [h1.2.2.2]
  · obtain ⟨_, _, a, _, hc⟩ := h1
    rw [hc] at h; simp at h

theorem createAppointment_conflict_iff (s : Store) (user : User) (body : Body)
    (hrole : user.role = Role.student) :
    (createAppointment s user body).2 = .error .slotConflictError ↔
      ∃ r ∈ s.docs, body.date = .valid r.date ∧ body.time = some r.time ∧
        r.isActive = true := by
  have hne : user.role ≠ Role.hod := by rw [hrole]; decide
  constructor
  · intro h
    rcases createAppointment_cases s user body with h1 | h1 | h1 | h1 | h1
    · exact absurd h1.1 hne
    · rw [h1.2.2] at h; simp at h
    · obtain ⟨_, ⟨d, hd, hf⟩, _⟩ := h1
      obtain ⟨r, hr, h1, h2, h3⟩ := (findActiveAt_isSome_iff s d body.time).1 hf
      subst h1
      exact ⟨r, hr, newDate_eq_some hd, h2.symm, h3⟩
    · rw [h1.2.2.2] at h; simp at h
    · obtain ⟨_, _, a, _, hc⟩ := h1
      rw [hc] at h; simp at h
  · rintro ⟨r, hr, h1, h2, h3⟩
    have hsome : (findActiveAt s r.date body.time).isSome = true :=
      (findActiveAt_isSome_iff s r.date body.time).2 ⟨r, hr, rfl, h2.symm, h3⟩
    unfold createAppointment
    rw [h1]
    simp only [hne, if_false, newDate]
    cases hf : findActiveAt s r.date body.time with
    | none => rw [hf] at hsome; simp at hsome
    | some x => rfl

/-- C2 (amended): for a student caller, create answers with the slot-conflict
error exactly when the store holds a pending or approved record with that date
and time; a failed create leaves the store unchanged; a successful create adds
exactly one record, pending, with the given date and time and the caller's id,
name and email, whose studentId is the caller's when the caller has a non-empty
one and "N/A" otherwise; a further create for the same date and time right
after a successful one answers with the slot-conflict error. -/
theorem create_slot_conflict_contract (s : Store) (user : User) (body : Body)
    (hrole : user.role = Role.student) :
    ((createAppointment s user body).2 = .error .slotConflictError ↔
      ∃ r ∈ s.docs, body.date = .valid r.date ∧ body.time = some r.time ∧
        r.isActive = true) ∧
    (∀ e, (createAppointment s user body).2 = .error e →
      (createAppointment s user body).1 = s) ∧
    (∀ a, (createAppointment s user body).2 = .ok a →
      (createAppointment s user body).1.docs = s.docs ++ [a] ∧ a.status = some Status.pending ∧
      body.date = .valid a.date ∧ body.time = some a.time ∧ a.student = user._id ∧
      a.studentName = user.name ∧ a.studentEmail = user.email ∧
      (∀ sid, user.studentId = some sid → sid ≠ "" → a.studentId = sid) ∧
      (truthy user.studentId = false → a.studentId = "N/A") ∧
      ∀ user2 body2, user2.role = Role.student → body2.date = body.date →
        body2.time = body.time →
        (createAppointment (createAppointment s user body).1 user2 body2).2 =
          .error .slotConflictError) := by
  refine ⟨createAppointment_conflict_iff s user body hrole, fun e h => createAppointment_error h, ?_⟩
  intro a h
  have h' : createAppointment s user body = ((createAppointment s user body).1, .ok a) :=
    Prod.ext rfl h
  obtain ⟨_, hdate, _, htd, hs⟩ := createAppointment_ok h'
  have f1 := congrArg Draft.status htd
  have f2 := congrArg Draft.time htd
  have f3 := congrArg Draft.student htd
  have f4 := congrArg Draft.studentName htd
  have f5 := congrArg Draft.studentEmail htd
  have f6 := congrArg Draft.studentId htd
  simp only [Appointment.toDraft, ofStored_eq_valid, ofStored_inj, newAppointment, Option.some.injEq] at f1 f2 f3 f4 f5 f6
  refine ⟨by rw [hs]; rfl, f1, hdate, f2.symm, f3, f4, f5, ?_, ?_, ?_⟩
  · intro sid hsid hne
    rw [f6, hsid]
    simp [truthy, hne]
  · intro hf
    rw [f6, hf]
    simp
  · intro user2 body2 hr2 hd2 ht2
    rw [createAppointment_conflict_iff _ user2 body2 hr2]
    refine ⟨a, ?_, ?_, ?_, ?_⟩
    · rw [hs]; simp [Store.insert]
    · rw [hd2, hdate]
    · rw [ht2, f2]
    · simp [Appointment.isActive, f1, Status.isActive]

/-- C2, concrete check: Ann books 2025-03-10 at 09:00 in the empty collection
and Bob's request for the same slot right after is refused as a conflict. -/
theorem create_slot_conflict_contract_witness :
    ann.role = Role.student ∧
      (createAppointment Store.empty ann nineOnMarch10).2 ≠ .error .slotConflictError ∧
      (createAppointment (createAppointment Store.empty ann nineOnMarch10).1 bob nineOnMarch10).2 =
        .error .slotConflictError :=
  ⟨rfl, by decide,
    ((create_slot_conflict_contract Store.empty ann nineOnMarch10 rfl).2.2 _ rfl).2.2.2.2.2.2.2.2.2
      bob nineOnMarch10 rfl rfl rfl⟩

/-- C2, counterexample to the claim as stated: Bob's identity has no student id,
his create succeeds, and the stored studentId is "N/A", which is not a field of
the caller. -/
theorem create_studentId_not_the_callers :
    bob.role = Role.student ∧
      ∃ a, (createAppointment Store.empty bob nineOnMarch10).2 = .ok a ∧
        a.studentId = "N/A" ∧ some a.studentId ≠ bob.studentId :=
  ⟨rfl, { _id := 0, student := 2, studentName := "Bob", studentEmail := "bob@uni.example",
          studentId := "N/A", date := march10, time := "09:00", purpose := "Thesis",
          status := some Status.pending, notes := none, hodNotes := none }, rfl, rfl, by decide⟩

/-! ## Update -/

/-- What a successful update did: the record was found, the assignments passed
validation and the result replaced the stored record. -/
theorem updateAppointment_ok {s s' : Store} {user : User} {id : Nat} {body : Body}
    {a : Appointment} (h : updateAppointment s user id body = (s', .ok a)) :
    ∃ r, findById s id = some r ∧ a.toDraft = applyUpdate r body ∧ s' = s.replace a ∧
      (timeChanged r body = true →
        ∃ d, effectiveDate r body = some d ∧ findActiveAtExcept s d body.time r._id = none) ∧
      validate a.toDraft = some a := by
  unfold updateAppointment at h
  cases hf : findById s id with
  | none => rw [hf] at h; simp at h
  | some r =>
    rw [hf] at h
    simp only at h
    have key : ∀ {x}, saveUpdate s r body = (s', Except.ok x) →
        x.toDraft = applyUpdate r body ∧ s' = s.replace x ∧ validate x.toDraft = some x := by
      intro x hx
      rcases saveUpdate_cases s r body with h1 | ⟨a', hv, h1⟩
      · rw [h1] at hx; simp at hx
      · rw [h1] at hx
        simp only [Prod.mk.injEq, Except.ok.injEq] at hx
        obtain ⟨hs, ha⟩ := hx
        subst ha
        exact ⟨toDraft_of_validate hv, hs.symm, by rw [toDraft_of_validate hv]; exact hv⟩
    refine ⟨r, rfl, ?_⟩
    split at h
    · simp at h
    · split at h
      · simp at h
      · split at h
        · rename_i htc
          split at h
          · simp at h
          · rename_i d hd
            split at h
            · simp at h
            · rename_i hfa
              exact ⟨(key h).1, (key h).2.1, fun _ => ⟨d, hd, hfa⟩, (key h).2.2⟩
        · rename_i htc
          exact ⟨(key h).1, (key h).2.1, fun hc => absurd hc htc, (key h).2.2⟩

/-- C7 (amended): after a successful update, date and time hold the supplied
value when a non-empty one was supplied and the prior value otherwise; purpose
holds the supplied value with surrounding white space removed when a non-empty
one was supplied and the prior value otherwise; notes holds the supplied value
with surrounding white space removed whenever one was supplied (an empty value
clears it) and the prior value only when none was supplied; the record's id,
student reference, student snapshot, status (as the handler read it) and
hodNotes are unchanged, and so is every other record of the store. -/
theorem update_partial_semantics (s s' : Store) (user : User) (id : Nat) (body : Body)
    (r a : Appointment) (hr : findById s id = some r)
    (h : updateAppointment s user id body = (s', .ok a)) :
    (∀ ms, body.date = .valid ms → a.date = ms) ∧
    (body.date = .absent → a.date = r.date) ∧
    body.date ≠ .invalid ∧
    (∀ t, body.time = some t → t ≠ "" → a.time = t) ∧
    (truthy body.time = false → a.time = r.time) ∧
    (∀ p, body.purpose = some p → p ≠ "" → a.purpose = jsTrim p) ∧
    (truthy body.purpose = false → a.purpose = r.purpose) ∧
    (∀ n, body.notes = some n → a.notes = some (jsTrim n)) ∧
    (body.notes = none → a.notes = r.notes) ∧
    a._id = r._id ∧ a.student = r.student ∧ a.studentName = r.studentName ∧
    a.studentEmail = r.studentEmail ∧ a.studentId = r.studentId ∧
    a.status = r.status ∧ a.hodNotes = r.hodNotes ∧
    s'.docs = s.docs.map (fun x => if x._id = id then a else x) ∧
    s'.nextId = s.nextId := by
  obtain ⟨r', hr', htd, hs, _⟩ := updateAppointment_ok h
  rw [hr] at hr'
  cases hr'
  have hid := findById_id hr
  have f0 := congrArg Draft._id htd
  have f1 := congrArg Draft.date htd
  have f2 := congrArg Draft.time htd
  have f3 := congrArg Draft.purpose htd
  have f4 := congrArg Draft.notes htd
  have f5 := congrArg Draft.student htd
  have f6 := congrArg Draft.studentName htd
  have f7 := congrArg Draft.studentEmail htd
  have f8 := congrArg Draft.studentId htd
  have f9 := congrArg Draft.status htd
  have f10 := congrArg Draft.hodNotes htd
  simp only [Appointment.toDraft, ofStored_eq_valid, ofStored_inj, applyUpdate, Option.some.injEq] at f0 f1 f2 f3 f4 f5 f6 f7 f8 f9 f10
  refine ⟨?_, ?_, ?_, ?_, ?_, ?_, ?_, ?_, ?_, f0, f5, f6, f7, f8, f9, f10, ?_, ?_⟩
  · intro ms hms
    rw [hms] at f1
    simpa [DateField.truthy, newDate] using f1
  · intro hab
    rw [hab] at f1
    simpa [DateField.truthy] using f1
  · intro hinv
    rw [hinv] at f1
    simp [DateField.truthy, newDate] at f1
  · intro t ht hne
    rw [ht] at f2
    simpa [truthy, hne] using f2
  · intro hf
    rw [hf] at f2
    simpa using f2
  · intro p hp hne
    rw [hp] at f3
    simpa [truthy, hne] using f3
  · intro hf
    rw [hf] at f3
    simpa using f3
  · intro n hn
    rw [hn] at f4
    exact f4
  · intro hn
    rw [hn] at f4
    exact f4
  · rw [hs]
    simp only [Store.replace, f0, hid]
  · rw [hs]
    rfl

/-- C7, concrete check: Ann's update with padded purpose and notes stores the
trimmed texts and keeps date, time and status. -/
theorem update_partial_semantics_witness :
    ∃ s' a, updateAppointment annBooked ann 0 paddedUpdate = (s', .ok a) ∧
      a.purpose = jsTrim "  Viva  " ∧ a.notes = some (jsTrim " bring draft ") ∧
      a.date = annRecord.date ∧ a.time = annRecord.time ∧ a.status = annRecord.status :=
  have h : updateAppointment annBooked ann 0 paddedUpdate =
      ((updateAppointment annBooked ann 0 paddedUpdate).1,
        .ok { annRecord with purpose := "Viva", notes := some "bring draft" }) := by decide
  have t := update_partial_semantics annBooked _ ann 0 paddedUpdate annRecord _ rfl h
  ⟨_, _, h, t.2.2.2.2.2.1 _ rfl (by decide), t.2.2.2.2.2.2.2.1 _ rfl, t.2.1 rfl,
    t.2.2.2.2.1 rfl, t.2.2.2.2.2.2.2.2.2.2.2.2.2.2.1⟩

/-- C7, counterexample to the claim as stated: a supplied purpose with
surrounding blanks is not stored as supplied, and a supplied empty purpose is
not stored at all (the prior purpose stays). -/
theorem update_purpose_not_as_supplied :
    (∃ s' a, updateAppointment annBooked ann 0 paddedUpdate = (s', .ok a) ∧
      paddedUpdate.purpose = some "  Viva  " ∧ a.purpose = "Viva" ∧
      some a.purpose ≠ paddedUpdate.purpose ∧ a.notes ≠ paddedUpdate.notes) ∧
    (∃ s' a, updateAppointment annBooked ann 0 emptyPurposeUpdate = (s', .ok a) ∧
      emptyPurposeUpdate.purpose = some "" ∧ a.purpose = "Thesis") :=
  ⟨⟨_, { annRecord with purpose := "Viva", notes := some "bring draft" }, rfl, rfl, rfl,
      by decide, by decide⟩,
    ⟨_, annRecord, rfl, rfl, rfl⟩⟩

/-! ## Create then get -/

theorem findById_insert_fresh {s : Store} {a : Appointment}
    (hfresh : ∀ r ∈ s.docs, r._id < s.nextId) (ha : a._id = s.nextId) :
    findById (s.insert a) a._id = some a.hydrate := by
  unfold findById Store.insert
  rw [List.find?_append]
  have hnone : s.docs.find? (fun r => r._id == a._id) = none := by
    rw [List.find?_eq_none]
    intro x hx
    have := hfresh x hx
    simp only [beq_iff_eq]
    omega
  rw [hnone]
  simp

/-- C8 (amended): in a store whose ids are below the next id, when create
succeeds a get of the created id by the same caller returns the created record;
its date and time are the submitted ones, its purpose and notes are the
submitted ones with surrounding white space removed, its status is pending and
its student fields are the caller's id, name and email, the studentId being the
caller's when non-empty and "N/A" otherwise. -/
theorem create_then_get (s s' : Store) (user : User) (body : Body) (a : Appointment)
    (hfresh : ∀ r ∈ s.docs, r._id < s.nextId)
    (h : createAppointment s user body = (s', .ok a)) :
    user.role = Role.student ∧
    getAppointment s' user a._id = .ok a ∧
    body.date = .valid a.date ∧ body.time = some a.time ∧
    body.purpose.map jsTrim = some a.purpose ∧ a.notes = body.notes.map jsTrim ∧
    a.status = some Status.pending ∧ a.hodNotes = none ∧
    a.student = user._id ∧ a.studentName = user.name ∧ a.studentEmail = user.email ∧
    (∀ sid, user.studentId = some sid → sid ≠ "" → a.studentId = sid) ∧
    (truthy user.studentId = false → a.studentId = "N/A") := by
  obtain ⟨hrole, hdate, _, htd, hs⟩ := createAppointment_ok h
  have f0 := congrArg Draft._id htd
  have f1 := congrArg Draft.status htd
  have f2 := congrArg Draft.time htd
  have f3 := congrArg Draft.student htd
  have f4 := congrArg Draft.studentName htd
  have f5 := congrArg Draft.studentEmail htd
  have f6 := congrArg Draft.studentId htd
  have f7 := congrArg Draft.purpose htd
  have f8 := congrArg Draft.notes htd
  have f9 := congrArg Draft.hodNotes htd
  simp only [Appointment.toDraft, ofStored_eq_valid, ofStored_inj, newAppointment, Option.some.injEq] at f0 f1 f2 f3 f4 f5 f6 f7 f8 f9
  refine ⟨?_, ?_, hdate, f2.symm, f7.symm, f8, f1, f9, f3, f4, f5, ?_, ?_⟩
  · cases hu : user.role with
    | student => rfl
    | hod => exact absurd hu hrole
  · unfold getAppointment
    rw [hs, findById_insert_fresh hfresh f0, hydrate_of_status (by rw [f1]; simp)]
    simp [f3]
  · intro sid hsid hne
    rw [f6, hsid]
    simp [truthy, hne]
  · intro hf
    rw [f6, hf]
    simp

/-- C8, concrete check: Ann creates a booking with padded texts in the empty
collection and reads it back. -/
theorem create_then_get_witness :
    ∃ s' a, createAppointment Store.empty ann paddedCreate = (s', .ok a) ∧
      getAppointment s' ann a._id = .ok a ∧ a.date = march10 ∧ a.time = "09:00" ∧
      a.purpose = "Thesis" ∧ a.notes = some "n" ∧ a.status = some Status.pending :=
  have h : createAppointment Store.empty ann paddedCreate =
      ((createAppointment Store.empty ann paddedCreate).1,
        .ok { annRecord with notes := some "n" }) := by decide
  have t := create_then_get Store.empty _ ann paddedCreate _ (by intro r hr; cases hr) h
  ⟨_, _, h, t.2.1, rfl, rfl, rfl, rfl, t.2.2.2.2.2.2.1⟩

/-- C8, counterexample to the claim as stated: the record read back after a
create holds the trimmed purpose and notes, not the submitted ones. -/
theorem read_back_not_as_submitted :
    ∃ s' a, createAppointment Store.empty ann paddedCreate = (s', .ok a) ∧
      getAppointment s' ann a._id = .ok a ∧
      paddedCreate.purpose = some " Thesis " ∧ a.purpose = "Thesis" ∧
      some a.purpose ≠ paddedCreate.purpose ∧ a.notes ≠ paddedCreate.notes :=
  ⟨_, { annRecord with notes := some "n" }, rfl, rfl, rfl, rfl, by decide, by decide⟩

/-! ## Set status -/

theorem findById_replace (s : Store) (a : Appointment) (j : Nat) :
    findById (s.replace a) j =
      (findById s j).map (fun r => if r._id = a._id then a.hydrate else r) := by
  unfold findById Store.replace
  rw [List.find?_map]
  have hp : ((fun r : Appointment => r._id == j) ∘ fun r => if r._id = a._id then a else r) =
      fun r : Appointment => r._id == j := by
    funext r
    simp only [Function.comp]
    split
    · rename_i he; rw [he]
    · rfl
  rw [hp]
  cases s.docs.find? (fun r => r._id == j) with
  | none => rfl
  | some r =>
    simp only [Option.map_some', Option.some.injEq]
    by_cases he : r._id = a._id
    · have he' : r.hydrate._id = a._id := he
      rw [if_pos he, if_pos he']
    · have he' : ¬ r.hydrate._id = a._id := he
      rw [if_neg he, if_neg he']

theorem replace_replace (s : Store) (a : Appointment) : (s.replace a).replace a = s.replace a := by
  unfold Store.replace
  simp only [List.map_map]
  congr 1
  apply List.map_congr_left
  intro x _
  simp only [Function.comp]
  split
  · simp
  · rename_i hne; simp [hne]

theorem validate_toDraft_with_status {r : Appointment} (hvalid : validate r.toDraft = some r)
    {f : StatusField} {x : Option Status} (hf : f.check = some x) (hn : Option String) :
    validate { r.toDraft with status := f, hodNotes := hn } =
      some { r with status := x, hodNotes := hn } := by
  unfold validate at hvalid ⊢
  simp only [Appointment.toDraft, check_ofStored] at hvalid ⊢
  split at hvalid
  · rename_i h1
    split at hvalid
    · rename_i h2
      simp [h1, h2, hf]
    · cases hvalid
  · cases hvalid

theorem validate_hydrate {r : Appointment} (hvalid : validate r.toDraft = some r) :
    validate r.hydrate.toDraft = some r.hydrate := by
  have h := validate_toDraft_with_status hvalid
    (check_ofStored (some (r.status.getD Status.pending))) r.hodNotes
  exact h

/-- What a successful status request did. -/
theorem setStatus_ok {s s' : Store} {id : Nat} {body : StatusBody} {a : Appointment}
    (h : setStatus s id body = (s', .ok a)) :
    ∃ r, findById s id = some r ∧ a.toDraft = applyStatus r body ∧ s' = s.replace a ∧
      validate a.toDraft = some a := by
  unfold setStatus at h
  cases hf : findById s id with
  | none => rw [hf] at h; simp at h
  | some r =>
    rw [hf] at h
    simp only at h
    cases hv : validate (applyStatus r body) with
    | none => rw [hv] at h; simp at h
    | some a' =>
      rw [hv] at h
      simp only [Prod.mk.injEq, Except.ok.injEq] at h
      obtain ⟨hs, ha⟩ := h
      subst ha
      exact ⟨r, rfl, toDraft_of_validate hv, hs.symm, by rw [toDraft_of_validate hv]; exact hv⟩

/-- C9: for an existing, schema-valid record and any of the five status values,
with or without hodNotes, the status request succeeds, the record then has the
requested status, and the same request issued again succeeds with the same
answer and leaves the store exactly as the first one left it. -/
theorem setStatus_idempotent (s : Store) (id : Nat) (r : Appointment) (st : Status)
    (notes : Option String) (hr : findById s id = some r)
    (hvalid : validate r.toDraft = some r) :
    (∃ a, (setStatus s id { status := .valid st, hodNotes := notes }).2 = .ok a ∧
      a.status = some st) ∧
    (∃ a, (setStatus (setStatus s id { status := .valid st, hodNotes := notes }).1 id
      { status := .valid st, hodNotes := notes }).2 = .ok a) ∧
    setStatus (setStatus s id { status := .valid st, hodNotes := notes }).1 id
      { status := .valid st, hodNotes := notes } =
      setStatus s id { status := .valid st, hodNotes := notes } := by
  have hid := findById_id hr
  let hn : Option String := if truthy notes then notes.map jsTrim else r.hodNotes
  let a : Appointment := { r with status := some st, hodNotes := hn }
  have hv1 : validate (applyStatus r { status := .valid st, hodNotes := notes }) = some a :=
    validate_toDraft_with_status hvalid (f := .valid st) rfl hn
  have h1 : setStatus s id { status := .valid st, hodNotes := notes } = (s.replace a, .ok a) := by
    unfold setStatus
    rw [hr]
    simp only [hv1]
  have hfa : findById (s.replace a) id = some a := by
    rw [findById_replace, hr]
    simp [a, Appointment.hydrate]
  have hva : validate a.toDraft = some a :=
    validate_toDraft_with_status hvalid (f := .valid st) rfl hn
  have hn2 : (if truthy notes then notes.map jsTrim else a.hodNotes) = hn := by
    simp only [a, hn]
    split <;> rfl
  have hv2 : validate (applyStatus a { status := .valid st, hodNotes := notes }) = some a := by
    have := validate_toDraft_with_status hva (f := .valid st) rfl hn
    simp only [applyStatus, hn2]
    exact this
  have h2 : setStatus (s.replace a) id { status := .valid st, hodNotes := notes } =
      (s.replace a, .ok a) := by
    unfold setStatus
    rw [hfa]
    simp only [hv2, replace_replace]
  rw [h1]
  simp only
  rw [h2]
  exact ⟨⟨a, rfl, rfl⟩, ⟨a, rfl⟩, rfl⟩

/-- C9, concrete check: approving Ann's booking twice with the same note. -/
theorem setStatus_idempotent_witness :
    findById annBooked 0 = some annRecord ∧
    setStatus (setStatus annBooked 0 { status := .valid Status.approved, hodNotes := some " ok " }).1 0
        { status := .valid Status.approved, hodNotes := some " ok " } =
      setStatus annBooked 0 { status := .valid Status.approved, hodNotes := some " ok " } ∧
    (setStatus annBooked 0 { status := .valid Status.approved, hodNotes := some " ok " }).2 =
      .ok { annRecord with status := some Status.approved, hodNotes := some "ok" } :=
  ⟨rfl, (setStatus_idempotent annBooked 0 annRecord Status.approved (some " ok ") rfl rfl).2.2, rfl⟩

/-! ## Who changes a status -/

theorem updateAppointment_cases (s : Store) (user : User) (id : Nat) (body : Body) :
    (∃ e, updateAppointment s user id body = (s, .error e)) ∨
      ∃ s' a, updateAppointment s user id body = (s', .ok a) := by
  unfold updateAppointment
  cases hf : findById s id with
  | none => exact Or.inl ⟨_, rfl⟩
  | some r =>
    have hsave : (∃ e, saveUpdate s r body = (s, .error e)) ∨
        ∃ s' a, saveUpdate s r body = (s', .ok a) := by
      rcases saveUpdate_cases s r body with h1 | ⟨a, _, h1⟩
      · exact Or.inl ⟨_, h1⟩
      · exact Or.inr ⟨_, a, h1⟩
    simp only
    split
    · exact Or.inl ⟨_, rfl⟩
    · split
      · exact Or.inl ⟨_, rfl⟩
      · split
        · split
          · exact Or.inl ⟨_, rfl⟩
          · split
            · exact Or.inl ⟨_, rfl⟩
            · exact hsave
        · exact hsave

theorem setStatus_cases (s : Store) (id : Nat) (body : StatusBody) :
    (∃ e, setStatus s id body = (s, .error e)) ∨
      ∃ s' a, setStatus s id body = (s', .ok a) := by
  unfold setStatus
  split
  · exact Or.inl ⟨_, rfl⟩
  · split
    · exact Or.inl ⟨_, rfl⟩
    · exact Or.inr ⟨_, _, rfl⟩

theorem deleteAppointment_cases (s : Store) (user : User) (id : Nat) :
    (∃ e, deleteAppointment s user id = (s, .error e)) ∨
      deleteAppointment s user id = (s.remove id, .ok ()) := by
  unfold deleteAppointment
  split
  · exact Or.inl ⟨_, rfl⟩
  · split
    · exact Or.inl ⟨_, rfl⟩
    · exact Or.inr rfl

theorem findById_insert_of_some {s : Store} {j : Nat} {r : Appointment} (a : Appointment)
    (hr : findById s j = some r) : findById (s.insert a) j = some r := by
  unfold findById at hr ⊢
  unfold Store.insert
  rw [List.find?_append]
  cases h0 : s.docs.find? (fun r => r._id == j) with
  | none => rw [h0] at hr; cases hr
  | some x => rw [h0] at hr; exact hr

theorem findById_remove (s : Store) (id j : Nat) :
    findById (s.remove id) j = if j = id then none else findById s j := by
  unfold findById Store.remove
  rw [List.find?_filter]
  split
  · rename_i h
    have hnone : s.docs.find? (fun a => decide ((a._id != id) = true ∧ (a._id == j) = true)) =
        none := by
      rw [List.find?_eq_none]
      intro x _
      simp [h]
    rw [hnone]
    rfl
  · rename_i h
    have hp : (fun a : Appointment => decide ((a._id != id) = true ∧ (a._id == j) = true)) =
        fun r : Appointment => r._id == j := by
      funext x
      by_cases hx : x._id = j
      · simp [hx, h]
      · simp [hx]
    rw [hp]

theorem mem_replace {s : Store} {a x : Appointment} (hx : x ∈ (s.replace a).docs) :
    x ∈ s.docs ∨ x = a := by
  unfold Store.replace at hx
  simp only [List.mem_map] at hx
  obtain ⟨y, hy, rfl⟩ := hx
  split
  · exact Or.inr rfl
  · exact Or.inl hy

/-- A status request on a schema-valid record succeeds unless its status is a
string outside the enum, and stores what the request holds. -/
theorem setStatus_of_valid {s : Store} {id : Nat} {r : Appointment} {f : StatusField}
    {x : Option Status} (hf : f.check = some x)
    (notes : Option String) (hr : findById s id = some r)
    (hvalid : validate r.toDraft = some r) :
    setStatus s id { status := f, hodNotes := notes } =
      (s.replace { r with status := x,
                          hodNotes := if truthy notes then notes.map jsTrim else r.hodNotes },
        .ok { r with status := x,
                     hodNotes := if truthy notes then notes.map jsTrim else r.hodNotes }) := by
  have hv := validate_toDraft_with_status hvalid hf
    (if truthy notes then notes.map jsTrim else r.hodNotes)
  unfold setStatus
  rw [hr]
  simp only [applyStatus, hv]

/-- C6 (amended): as read back, the status of an existing record is changed by
no operation other than the status request: after a create, an update or a
delete, and after a status request that names another record, a record that is
still in the store reads with the status it read with before.  In the store,
create and delete leave the records they do not add or remove as they are, and
an update writes the status the record was read with (the stored status when
there is one, pending when it had been unset).  The status request stores
whichever of the five values it is given, whatever the prior status, terminal
ones included, and with no status in the body it unsets the stored status,
after which the record reads as pending. -/
theorem status_changed_only_by_setStatus (s : Store) (user : User) (id j : Nat) (body : Body)
    (sb : StatusBody) (r r' : Appointment) (hr : findById s j = some r) :
    (findById (createAppointment s user body).1 j = some r' → r'.status = r.status) ∧
    (findById (updateAppointment s user id body).1 j = some r' → r'.status = r.status) ∧
    (findById (deleteAppointment s user id).1 j = some r' → r'.status = r.status) ∧
    (j ≠ id → findById (setStatus s id sb).1 j = some r' → r'.status = r.status) ∧
    (∀ x ∈ (createAppointment s user body).1.docs,
      x ∈ s.docs ∨ (x._id = s.nextId ∧ x.status = some Status.pending)) ∧
    (∀ x ∈ (deleteAppointment s user id).1.docs, x ∈ s.docs) ∧
    (∀ x ∈ (updateAppointment s user id body).1.docs,
      x ∈ s.docs ∨ (x._id = id ∧ ∃ r0, findById s id = some r0 ∧ x.status = r0.status)) ∧
    (∀ x ∈ (setStatus s id sb).1.docs,
      x ∈ s.docs ∨ (x._id = id ∧ sb.status.check = some x.status)) ∧
    (validate r.toDraft = some r → ∀ st notes, ∃ a,
      (setStatus s j { status := .valid st, hodNotes := notes }).2 = .ok a ∧
      a.status = some st ∧
      findById (setStatus s j { status := .valid st, hodNotes := notes }).1 j = some a) ∧
    (validate r.toDraft = some r → ∀ notes, ∃ a,
      (setStatus s j { status := .absent, hodNotes := notes }).2 = .ok a ∧
      a.status = none ∧ a ∈ (setStatus s j { status := .absent, hodNotes := notes }).1.docs ∧
      (findById (setStatus s j { status := .absent, hodNotes := notes }).1 j).map
        (fun y => y.status) = some (some Status.pending)) := by
  have hj := findById_id hr
  have hrs := findById_status hr
  have same : ∀ {t : Store}, t = s → findById t j = some r' → r'.status = r.status := by
    intro t ht h
    rw [ht, hr] at h
    cases h
    rfl
  have hmemr : r._id = j ∧ ∃ r0 ∈ s.docs, r0._id = j := by
    obtain ⟨r0, h0, h1, _⟩ := findById_stored hr
    exact ⟨hj, r0, h0, h1⟩
  refine ⟨?_, ?_, ?_, ?_, ?_, ?_, ?_, ?_, ?_, ?_⟩
  · intro h
    rcases createAppointment_cases s user body with h1 | h1 | h1 | h1 | h1
    · exact same (by rw [h1.2]) h
    · exact same (by rw [h1.2.2]) h
    · exact same (by rw [h1.2.2]) h
    · exact same (by rw [h1.2.2.2]) h
    · obtain ⟨_, _, a, _, hc⟩ := h1
      rw [hc] at h
      simp only at h
      rw [findById_insert_of_some a hr] at h
      cases h
      rfl
  · intro h
    rcases updateAppointment_cases s user id body with ⟨e, h1⟩ | ⟨s', a, h1⟩
    · exact same (by rw [h1]) h
    · obtain ⟨r0, hr0, htd, hs, _⟩ := updateAppointment_ok h1
      rw [h1] at h
      simp only at h
      rw [hs, findById_replace, hr] at h
      simp only [Option.map_some', Option.some.injEq] at h
      have f0 := congrArg Draft._id htd
      have f9 := congrArg Draft.status htd
      simp only [Appointment.toDraft, ofStored_eq_valid, ofStored_inj, applyUpdate,
        Option.some.injEq] at f0 f9
      split at h
      · rename_i he
        have hid0 := findById_id hr0
        have hjid : j = id := by omega
        subst hjid
        rw [hr] at hr0
        cases hr0
        rw [← h, hydrate_of_status (by rw [f9]; exact hrs), f9]
      · rw [← h]
  · intro h
    rcases deleteAppointment_cases s user id with ⟨e, h1⟩ | h1
    · exact same (by rw [h1]) h
    · rw [h1] at h
      simp only at h
      rw [findById_remove] at h
      split at h
      · cases h
      · rw [hr] at h
        cases h
        rfl
  · intro hne h
    rcases setStatus_cases s id sb with ⟨e, h1⟩ | ⟨s', a, h1⟩
    · exact same (by rw [h1]) h
    · obtain ⟨r0, hr0, htd, hs, _⟩ := setStatus_ok h1
      rw [h1] at h
      simp only at h
      rw [hs, findById_replace, hr] at h
      simp only [Option.map_some', Option.some.injEq] at h
      have f0 := congrArg Draft._id htd
      simp only [Appointment.toDraft, applyStatus] at f0
      have hid0 := findById_id hr0
      split at h
      · omega
      · rw [← h]
  · intro x hx
    rcases createAppointment_cases s user body with h1 | h1 | h1 | h1 | h1
    · rw [h1.2] at hx; exact Or.inl hx
    · rw [h1.2.2] at hx; exact Or.inl hx
    · rw [h1.2.2] at hx; exact Or.inl hx
    · rw [h1.2.2.2] at hx; exact Or.inl hx
    · obtain ⟨_, _, a, hv, hc⟩ := h1
      rw [hc] at hx
      have hx' : x ∈ s.docs ++ [a] := hx
      rw [List.mem_append, List.mem_singleton] at hx'
      rcases hx' with hx' | hx'
      · exact Or.inl hx'
      · have htd := toDraft_of_validate hv
        have f0 := congrArg Draft._id htd
        have f1 := congrArg Draft.status htd
        simp only [Appointment.toDraft, ofStored_eq_valid, newAppointment] at f0 f1
        rw [hx']
        exact Or.inr ⟨f0, f1⟩
  · intro x hx
    rcases deleteAppointment_cases s user id with ⟨e, h1⟩ | h1
    · rw [h1] at hx; exact hx
    · rw [h1] at hx
      exact (List.mem_filter.1 hx).1
  · intro x hx
    rcases updateAppointment_cases s user id body with ⟨e, h1⟩ | ⟨s', a, h1⟩
    · rw [h1] at hx; exact Or.inl hx
    · obtain ⟨r0, hr0, htd, hs, _⟩ := updateAppointment_ok h1
      rw [h1, hs] at hx
      rcases mem_replace hx with hx' | hx'
      · exact Or.inl hx'
      · have f0 := congrArg Draft._id htd
        have f9 := congrArg Draft.status htd
        simp only [Appointment.toDraft, ofStored_inj, applyUpdate] at f0 f9
        rw [hx']
        exact Or.inr ⟨by rw [f0]; exact findById_id hr0, r0, hr0, f9⟩
  · intro x hx
    rcases setStatus_cases s id sb with ⟨e, h1⟩ | ⟨s', a, h1⟩
    · rw [h1] at hx; exact Or.inl hx
    · obtain ⟨r0, hr0, htd, hs, _⟩ := setStatus_ok h1
      rw [h1, hs] at hx
      rcases mem_replace hx with hx' | hx'
      · exact Or.inl hx'
      · have f0 := congrArg Draft._id htd
        have f9 := congrArg Draft.status htd
        simp only [Appointment.toDraft, applyStatus] at f0 f9
        rw [hx']
        refine Or.inr ⟨by rw [f0]; exact findById_id hr0, ?_⟩
        rw [← f9]
        exact check_ofStored a.status
  · intro hvalid st notes
    rw [setStatus_of_valid (f := .valid st) rfl notes hr hvalid]
    refine ⟨_, rfl, rfl, ?_⟩
    simp only
    rw [findById_replace, hr]
    simp [Appointment.hydrate]
  · intro hvalid notes
    rw [setStatus_of_valid (f := .absent) rfl notes hr hvalid]
    refine ⟨_, rfl, rfl, ?_, ?_⟩
    · obtain ⟨_, r0, h0, h1⟩ := hmemr
      simp only [Store.replace, List.mem_map]
      exact ⟨r0, h0, by rw [if_pos (h1.trans hj.symm)]⟩
    · simp only
      rw [findById_replace, hr]
      simp [Appointment.hydrate]

/-- C6, concrete check: Ann's update of her pending booking keeps it pending,
and the department head may then set it to any status. -/
theorem status_changed_only_by_setStatus_witness :
    findById annBooked 0 = some annRecord ∧
    (∀ r', findById (updateAppointment annBooked ann 0 paddedUpdate).1 0 = some r' →
      r'.status = some Status.pending) ∧
    ∃ a, (setStatus annBooked 0 { status := .valid Status.completed, hodNotes := none }).2 = .ok a ∧
      a.status = some Status.completed :=
  ⟨rfl,
    fun r' h => (status_changed_only_by_setStatus annBooked ann 0 0 paddedUpdate
      { status := .invalid, hodNotes := none } annRecord r' rfl).2.1 h,
    ⟨_, rfl, rfl⟩⟩

/-- C6, counterexample to the claim as stated: Ann's booking is rejected, which
is terminal, and a later status request makes the same record approved; a
status request without a status does the same, the rejected record reading as
pending afterwards. -/
theorem terminal_record_reactivated :
    (findById (setStatus annBooked 0 { status := .valid Status.rejected, hodNotes := none }).1 0).map
        (fun r => r.status) = some (some Status.rejected) ∧
    (findById (setStatus
        (setStatus annBooked 0 { status := .valid Status.rejected, hodNotes := none }).1 0
        { status := .valid Status.approved, hodNotes := none }).1 0).map
        (fun r => r.status) = some (some Status.approved) ∧
    (findById (setStatus
        (setStatus annBooked 0 { status := .valid Status.rejected, hodNotes := none }).1 0
        noStatus).1 0).map (fun r => r.status) = some (some Status.pending) ∧
    Status.rejected.isActive = false ∧ Status.approved.isActive = true ∧
    Status.pending.isActive = true :=
  ⟨rfl, rfl, rfl, rfl, rfl, rfl⟩

/-! ## Availability -/

theorem timeClip_eq_some (t x : Int) :
    timeClip t = some x ↔ x = t ∧ -maxTime ≤ x ∧ x ≤ maxTime := by
  unfold timeClip
  split
  · rename_i h
    constructor
    · intro e
      cases e
      exact ⟨rfl, h⟩
    · rintro ⟨e, _⟩
      rw [e]
  · rename_i h
    constructor
    · intro e
      cases e
    · rintro ⟨e, h1⟩
      rw [e] at h1
      exact absurd h1 h

theorem localMidnight_spec (tz : TimeZone) (d : Int) :
    localMidnight tz d % msPerDay = 0 ∧ localMidnight tz d ≤ d + tz.atUtc d ∧
      d + tz.atUtc d < localMidnight tz d + msPerDay := by
  unfold localMidnight msPerDay
  simp only
  omega

theorem startOfDay_eq_some (tz : TimeZone) (d lo : Int) :
    startOfDay tz d = some lo ↔
      lo = localMidnight tz d - tz.atLocal (localMidnight tz d) ∧ -maxTime ≤ lo ∧ lo ≤ maxTime := by
  unfold startOfDay
  exact timeClip_eq_some _ lo

theorem endOfDay_eq_some (tz : TimeZone) (d hi : Int) :
    endOfDay tz d = some hi ↔
      hi = localMidnight tz d + 86399999 - tz.atLocal (localMidnight tz d + 86399999) ∧
        -maxTime ≤ hi ∧ hi ≤ maxTime := by
  unfold endOfDay
  exact timeClip_eq_some _ hi

theorem hourLabels :
    (List.range' 9 8).map hourLabel =
      ["09:00", "10:00", "11:00", "12:00", "13:00", "14:00", "15:00", "16:00"] := by
  decide

theorem contains_true_iff (l : List String) (t : String) : l.contains t = true ↔ t ∈ l := by
  simp

theorem mem_bookedTimes (s : Store) (lo hi : Int) (t : String) :
    t ∈ bookedTimes s lo hi ↔
      ∃ r ∈ s.docs, lo ≤ r.date ∧ r.date ≤ hi ∧ r.time = t ∧ r.isActive = true := by
  unfold bookedTimes
  simp only [List.mem_map, List.mem_filter, Bool.and_eq_true, decide_eq_true_eq]
  constructor
  · rintro ⟨r, ⟨hr, ⟨h1, h2⟩, h3⟩, h4⟩
    exact ⟨r, hr, h1, h2, h4, h3⟩
  · rintro ⟨r, hr, h1, h2, h4, h3⟩
    exact ⟨r, ⟨hr, ⟨h1, h2⟩, h3⟩, h4⟩

theorem getAvailability_of_window {tz : TimeZone} {d lo hi : Int} (s : Store)
    (hd : timeClip d = some d)
    (hlo : startOfDay tz d = some lo) (hhi : endOfDay tz d = some hi) :
    getAvailability tz s (some d) =
      .ok ((List.range' 9 8).map (fun hour =>
        { time := hourLabel hour,
          available := !(bookedTimes s lo hi).contains (hourLabel hour) })) := by
  unfold getAvailability
  simp only [Option.bind, hd, hlo, hhi]

/-- C3 (amended): the availability handler looks at a window of dates, from
local midnight of the requested date's day to the last millisecond of that day,
both taken back to UTC.  When one end of the window is not a date JavaScript can
hold (or the requested date itself is not) the answer is the store error.
Otherwise the answer has exactly the 8
entries "09:00" to "16:00" in that order, and the entry for a label is
unavailable exactly when the store holds a record with that time, a stored
status pending or approved and a date inside the window; when such a record
exists and all of them are at "09:00", only the "09:00" entry is unavailable.
The handler returns no store.  In a zone with one offset all year the window
holds the requested date, is a day long, and among dates without a time of day
(UTC midnights) holds the requested date only. -/
theorem availability_by_day_window (tz : TimeZone) (s : Store) (d : Int) :
    (msPerDay = 24 * 60 * 60 * 1000 ∧ maxTime = 100000000 * msPerDay) ∧
    (localMidnight tz d % msPerDay = 0 ∧ localMidnight tz d ≤ d + tz.atUtc d ∧
      d + tz.atUtc d < localMidnight tz d + msPerDay) ∧
    (∀ lo, startOfDay tz d = some lo ↔
      lo = localMidnight tz d - tz.atLocal (localMidnight tz d) ∧
        -maxTime ≤ lo ∧ lo ≤ maxTime) ∧
    (∀ hi, endOfDay tz d = some hi ↔
      hi = localMidnight tz d + 86399999 - tz.atLocal (localMidnight tz d + 86399999) ∧
        -maxTime ≤ hi ∧ hi ≤ maxTime) ∧
    (getAvailability tz s (some d) = .error .storeError ↔
      (timeClip d = none ∨ startOfDay tz d = none ∨ endOfDay tz d = none)) ∧
    (∀ lo hi, timeClip d = some d → startOfDay tz d = some lo → endOfDay tz d = some hi →
      ∃ slots, getAvailability tz s (some d) = .ok slots ∧
        slots.map (fun sl => sl.time) =
          ["09:00", "10:00", "11:00", "12:00", "13:00", "14:00", "15:00", "16:00"] ∧
        slots.length = 8 ∧
        (∀ sl ∈ slots, sl.available = false ↔
          ∃ r ∈ s.docs, lo ≤ r.date ∧ r.date ≤ hi ∧ r.time = sl.time ∧ r.isActive = true) ∧
        ((∃ r ∈ s.docs, lo ≤ r.date ∧ r.date ≤ hi ∧ r.isActive = true) →
          (∀ r ∈ s.docs, lo ≤ r.date → r.date ≤ hi → r.isActive = true → r.time = "09:00") →
          slots = [⟨"09:00", false⟩, ⟨"10:00", true⟩, ⟨"11:00", true⟩, ⟨"12:00", true⟩,
                   ⟨"13:00", true⟩, ⟨"14:00", true⟩, ⟨"15:00", true⟩, ⟨"16:00", true⟩])) ∧
    (∀ off lo hi, startOfDay (TimeZone.fixed off) d = some lo →
      endOfDay (TimeZone.fixed off) d = some hi →
      lo ≤ d ∧ d ≤ hi ∧ hi = lo + 86399999 ∧ (lo + off) % msPerDay = 0 ∧
      ∀ x, d % msPerDay = 0 → x % msPerDay = 0 → ((lo ≤ x ∧ x ≤ hi) ↔ x = d)) := by
  refine ⟨⟨by decide, by decide⟩, localMidnight_spec tz d, startOfDay_eq_some tz d,
    endOfDay_eq_some tz d, ?_, ?_, ?_⟩
  · cases hd : timeClip d with
    | none => simp [getAvailability, hd]
    | some d' =>
      obtain ⟨e, _⟩ := (timeClip_eq_some d d').1 hd
      subst e
      cases hlo : startOfDay tz d' with
      | none => simp [getAvailability, hd, hlo]
      | some lo =>
        cases hhi : endOfDay tz d' with
        | none => simp [getAvailability, hd, hlo, hhi]
        | some hi => simp [getAvailability, hd, hlo, hhi]
  · intro lo hi hd hlo hhi
    have hmap : ((List.range' 9 8).map (fun hour =>
        ({ time := hourLabel hour,
           available := !(bookedTimes s lo hi).contains (hourLabel hour) } : Slot))).map
        (fun sl => sl.time) =
        ["09:00", "10:00", "11:00", "12:00", "13:00", "14:00", "15:00", "16:00"] := by
      rw [List.map_map, ← hourLabels]
      rfl
    refine ⟨_, getAvailability_of_window s hd hlo hhi, hmap, by simp, ?_, ?_⟩
    · intro sl hsl
      rw [List.mem_map] at hsl
      obtain ⟨hour, _, rfl⟩ := hsl
      simp only [Bool.not_eq_false', contains_true_iff]
      exact mem_bookedTimes s lo hi (hourLabel hour)
    · rintro ⟨r0, hr0, h1, h2, h3⟩ hall
      have h9 : (bookedTimes s lo hi).contains "09:00" = true := by
        rw [contains_true_iff, mem_bookedTimes]
        exact ⟨r0, hr0, h1, h2, hall r0 hr0 h1 h2 h3, h3⟩
      have hother : ∀ t : String, t ≠ "09:00" → (bookedTimes s lo hi).contains t = false := by
        intro t ht
        rw [← Bool.not_eq_true, contains_true_iff, mem_bookedTimes]
        rintro ⟨r, hr, g1, g2, g3, g4⟩
        exact ht (g3 ▸ hall r hr g1 g2 g4)
      simp only [List.range', List.map]
      have e9 : hourLabel 9 = "09:00" := by decide
      have e10 : hourLabel (9 + 1) = "10:00" := by decide
      have e11 : hourLabel (9 + 1 + 1) = "11:00" := by decide
      have e12 : hourLabel (9 + 1 + 1 + 1) = "12:00" := by decide
      have e13 : hourLabel (9 + 1 + 1 + 1 + 1) = "13:00" := by decide
      have e14 : hourLabel (9 + 1 + 1 + 1 + 1 + 1) = "14:00" := by decide
      have e15 : hourLabel (9 + 1 + 1 + 1 + 1 + 1 + 1) = "15:00" := by decide
      have e16 : hourLabel (9 + 1 + 1 + 1 + 1 + 1 + 1 + 1) = "16:00" := by decide
      rw [e9, e10, e11, e12, e13, e14, e15, e16, h9, hother "10:00" (by decide),
        hother "11:00" (by decide), hother "12:00" (by decide), hother "13:00" (by decide),
        hother "14:00" (by decide), hother "15:00" (by decide), hother "16:00" (by decide)]
      rfl
  · intro off lo hi hlo hhi
    obtain ⟨e1, _, _⟩ := (startOfDay_eq_some _ d lo).1 hlo
    obtain ⟨e2, _, _⟩ := (endOfDay_eq_some _ d hi).1 hhi
    simp only [TimeZone.fixed, localMidnight] at e1 e2
    unfold msPerDay at e1 e2 ⊢
    refine ⟨by omega, by omega, by omega, by omega, ?_⟩
    intro x hd hx
    omega

/-- C3, concrete check: in UTC, with Ann's booking at 09:00 on 2025-03-10, the
window of 2025-03-10 runs from 00:00:00.000 to 23:59:59.999 of that day and
only the "09:00" entry is unavailable. -/
theorem availability_by_day_window_witness :
    startOfDay utc march10 = some march10 ∧
    endOfDay utc march10 = some (march10 + 86399999) ∧
    getAvailability utc annBooked (some march10) =
      .ok [⟨"09:00", false⟩, ⟨"10:00", true⟩, ⟨"11:00", true⟩, ⟨"12:00", true⟩,
           ⟨"13:00", true⟩, ⟨"14:00", true⟩, ⟨"15:00", true⟩, ⟨"16:00", true⟩] := by
  have hlo : startOfDay utc march10 = some march10 := by decide
  have hhi : endOfDay utc march10 = some (march10 + 86399999) := by decide
  obtain ⟨slots, h, _, _, _, h9⟩ :=
    (availability_by_day_window utc annBooked march10).2.2.2.2.2.1 _ _ (by decide) hlo hhi
  refine ⟨hlo, hhi, ?_⟩
  rw [h, h9 ⟨annRecord, by decide, by decide, by decide, rfl⟩ (by decide)]

/-- The window on a day the clocks go forward: for 2025-03-30 in a zone that
moves from UTC+1 to UTC+2 that night it runs from 2025-03-29T23:00Z to
2025-03-30T21:59:59.999Z, 23 hours. -/
theorem spring_forward_window :
    startOfDay springForward march30 = some (march30 - 3600000) ∧
    endOfDay springForward march30 = some (march30 - 3600000 + 82799999) := by
  constructor
  · decide
  · decide

/-- C3, counterexample to the claim as stated.  The only record of the store
has the date 2025-03-10T10:00Z, so no record has the requested date
2025-03-10T00:00Z, yet the "09:00" entry is unavailable.  And for the last date
JavaScript can hold, +275760-09-13T00:00Z, the end of the day is not a date and
the answer is the store error, not 8 entries. -/
theorem availability_not_as_claimed :
    (∀ r ∈ (createAppointment Store.empty ann nineOnMarch10Late).1.docs, r.date ≠ march10) ∧
    getAvailability utc (createAppointment Store.empty ann nineOnMarch10Late).1 (some march10) =
      .ok [⟨"09:00", false⟩, ⟨"10:00", true⟩, ⟨"11:00", true⟩, ⟨"12:00", true⟩,
           ⟨"13:00", true⟩, ⟨"14:00", true⟩, ⟨"15:00", true⟩, ⟨"16:00", true⟩] ∧
    getAvailability utc Store.empty (some maxTime) = .error .storeError := by
  refine ⟨?_, ?_, ?_⟩
  · decide
  · decide
  · decide

/-! ## The slot invariant along sequences of requests -/

theorem clashes_symm {a b : Appointment} (h : a.clashes b) : b.clashes a :=
  ⟨h.1.symm, h.2.1.symm, h.2.2.2, h.2.2.1⟩

theorem compatible_symm : Symmetric Appointment.compatible :=
  fun _ _ h => ⟨fun e => h.1 e.symm, fun c => h.2 (clashes_symm c)⟩

theorem eq_of_id_eq {l : List Appointment} (hl : l.Pairwise Appointment.compatible)
    {x y : Appointment} (hx : x ∈ l) (hy : y ∈ l) (hid : x._id = y._id) : x = y := by
  by_contra hne
  exact (hl.forall compatible_symm hx hy hne).1 hid

theorem not_clashes_of_mem {l : List Appointment} (hl : l.Pairwise Appointment.compatible)
    {x y : Appointment} (hx : x ∈ l) (hy : y ∈ l) (hid : x._id ≠ y._id) : ¬ x.clashes y := by
  have hne : x ≠ y := fun e => hid (by rw [e])
  exact (hl.forall compatible_symm hx hy hne).2

theorem slotExclusive_of_pairwise {l : List Appointment}
    (hl : l.Pairwise Appointment.compatible) (D : Int) (T : String) :
    (l.filter (fun r => r.date == D && r.time == T && r.isActive)).length ≤ 1 := by
  induction l with
  | nil => simp
  | cons a l ih =>
    rw [List.pairwise_cons] at hl
    rw [List.filter_cons]
    split
    · rename_i hp
      simp only [Bool.and_eq_true, beq_iff_eq] at hp
      have hnil : l.filter (fun r => r.date == D && r.time == T && r.isActive) = [] := by
        rw [List.filter_eq_nil_iff]
        intro b hb hq
        simp only [Bool.and_eq_true, beq_iff_eq] at hq
        exact (hl.1 b hb).2 ⟨hp.1.1.trans hq.1.1.symm, hp.1.2.trans hq.1.2.symm, hp.2, hq.2⟩
      rw [hnil]
      simp
    · exact ih hl.2

theorem slotExclusive_of_consistent {s : Store} (h : s.Consistent) : SlotExclusive s :=
  fun D T => slotExclusive_of_pairwise h.1 D T

theorem consistent_empty : Store.empty.Consistent :=
  ⟨List.Pairwise.nil, fun r hr => (by cases hr), fun r hr => (by cases hr)⟩

theorem findById_mem_of_consistent {s : Store} (hc : s.Consistent) {id : Nat} {r : Appointment}
    (hr : findById s id = some r) : r ∈ s.docs := by
  obtain ⟨r0, h0, _, rfl⟩ := findById_stored hr
  rw [hydrate_of_status (hc.2.2 r0 h0)]
  exact h0

theorem consistent_replace {s : Store} {a r : Appointment} (hc : s.Consistent)
    (hid : a._id = r._id) (hst : a.status ≠ none)
    (hno : ∀ y ∈ s.docs, y._id ≠ r._id → ¬ a.clashes y) :
    (s.replace a).Consistent := by
  refine ⟨?_, ?_, ?_⟩
  · unfold Store.replace
    simp only
    rw [List.pairwise_map]
    refine hc.1.imp_of_mem ?_
    intro x y hx hy hxy
    by_cases h1 : x._id = a._id
    · have h2 : y._id ≠ a._id := fun e => hxy.1 (h1.trans e.symm)
      simp only [h1, h2, if_true, if_false]
      exact ⟨fun e => h2 e.symm, hno y hy (by rw [← hid]; exact h2)⟩
    · by_cases h2 : y._id = a._id
      · simp only [h1, h2, if_true, if_false]
        exact ⟨h1, fun c => hno x hx (by rw [← hid]; exact h1) (clashes_symm c)⟩
      · simp only [h1, h2, if_false]
        exact hxy
  · intro x hx
    unfold Store.replace at hx
    simp only [List.mem_map] at hx
    obtain ⟨y, hy, rfl⟩ := hx
    have hlt := hc.2.1 y hy
    show _ < s.nextId
    split
    · rename_i he; rw [← he]; exact hlt
    · exact hlt
  · intro x hx
    rcases mem_replace hx with hx' | hx'
    · exact hc.2.2 x hx'
    · rw [hx']; exact hst

theorem consistent_create {s : Store} (hc : s.Consistent) (user : User) (body : Body) :
    (createAppointment s user body).1.Consistent := by
  rcases createAppointment_cases s user body with h1 | h1 | h1 | h1 | h1
  · rw [h1.2]; exact hc
  · rw [h1.2.2]; exact hc
  · rw [h1.2.2]; exact hc
  · rw [h1.2.2.2]; exact hc
  · obtain ⟨_, _, a, _, hcr⟩ := h1
    obtain ⟨_, _, hfree, htd, _⟩ := createAppointment_ok hcr
    rw [hcr]
    have f0 := congrArg Draft._id htd
    have f1 := congrArg Draft.status htd
    have f2 := congrArg Draft.time htd
    simp only [Appointment.toDraft, ofStored_eq_valid, newAppointment] at f0 f1 f2
    unfold findActiveAt at hfree
    rw [List.find?_eq_none] at hfree
    refine ⟨?_, ?_, ?_⟩
    · show (s.docs ++ [a]).Pairwise Appointment.compatible
      rw [List.pairwise_append]
      refine ⟨hc.1, List.pairwise_singleton _ _, ?_⟩
      intro x hx y hy
      rw [List.mem_singleton] at hy
      subst hy
      have hlt := hc.2.1 x hx
      refine ⟨by omega, ?_⟩
      intro hcl
      apply hfree x hx
      simp [hcl.1, hcl.2.1, hcl.2.2.1, ← f2]
    · intro x hx
      have hx' : x ∈ s.docs ++ [a] := hx
      show x._id < s.nextId + 1
      rw [List.mem_append, List.mem_singleton] at hx'
      rcases hx' with hx' | hx'
      · have := hc.2.1 x hx'; omega
      · rw [hx', f0]; omega
    · intro x hx
      have hx' : x ∈ s.docs ++ [a] := hx
      rw [List.mem_append, List.mem_singleton] at hx'
      rcases hx' with hx' | hx'
      · exact hc.2.2 x hx'
      · rw [hx', f1]; simp

theorem consistent_delete {s : Store} (hc : s.Consistent) (user : User) (id : Nat) :
    (deleteAppointment s user id).1.Consistent := by
  rcases deleteAppointment_cases s user id with ⟨e, h1⟩ | h1
  · rw [h1]; exact hc
  · rw [h1]
    exact ⟨hc.1.filter _, fun x hx => hc.2.1 x (List.mem_filter.1 hx).1,
      fun x hx => hc.2.2 x (List.mem_filter.1 hx).1⟩

theorem consistent_status {s : Store} (hc : s.Consistent) (id : Nat) (body : StatusBody)
    (hg : (Op.status id body).guarded s = true) : (setStatus s id body).1.Consistent := by
  rcases setStatus_cases s id body with ⟨e, h1⟩ | ⟨s', a, h1⟩
  · rw [h1]; exact hc
  · obtain ⟨r, hr, htd, hs, _⟩ := setStatus_ok h1
    rw [h1, hs]
    have f0 := congrArg Draft._id htd
    have f1 := congrArg Draft.date htd
    have f2 := congrArg Draft.time htd
    have f9 := congrArg Draft.status htd
    simp only [Appointment.toDraft, applyStatus, Option.some.injEq] at f0 f1 f2 f9
    simp only [Op.guarded, h1, hr] at hg
    have hst : ∃ st, a.status = some st ∧ (st.isActive = true → r.isActive = true) := by
      cases hb : body.status with
      | absent => rw [hb] at hg; simp at hg
      | invalid => rw [hb] at hg; simp at hg
      | valid st =>
        rw [hb] at f9 hg
        rw [ofStored_eq_valid] at f9
        refine ⟨st, f9, ?_⟩
        intro hact
        simpa [hact] using hg
    obtain ⟨st, hs1, hs2⟩ := hst
    have hact : a.isActive = true → r.isActive = true := by
      intro ha
      apply hs2
      simpa [Appointment.isActive, hs1] using ha
    refine consistent_replace hc f0 (by rw [hs1]; simp) ?_
    intro y hy hne hcl
    exact not_clashes_of_mem hc.1 (findById_mem_of_consistent hc hr) hy (fun e => hne e.symm)
      ⟨f1 ▸ hcl.1, f2 ▸ hcl.2.1, hact hcl.2.2.1, hcl.2.2.2⟩

theorem consistent_update {s : Store} (hc : s.Consistent) (user : User) (id : Nat) (body : Body)
    (hg : (Op.update user id body).guarded s = true) :
    (updateAppointment s user id body).1.Consistent := by
  rcases updateAppointment_cases s user id body with ⟨e, h1⟩ | ⟨s', a, h1⟩
  · rw [h1]; exact hc
  · obtain ⟨r, hr, htd, hs, hchk, _⟩ := updateAppointment_ok h1
    rw [h1, hs]
    have f0 := congrArg Draft._id htd
    have f1 := congrArg Draft.date htd
    have f2 := congrArg Draft.time htd
    have f9 := congrArg Draft.status htd
    simp only [Appointment.toDraft, ofStored_inj, applyUpdate, Option.some.injEq] at f0 f1 f2 f9
    simp only [Op.guarded, h1, hr] at hg
    have hactive : a.isActive = r.isActive := by
      simp only [Appointment.isActive, f9]
    refine consistent_replace hc f0 (by rw [f9]; exact findById_status hr) ?_
    intro y hy hne hcl
    by_cases htc : timeChanged r body = true
    · obtain ⟨d, hd, hnone⟩ := hchk htc
      have hda : d = a.date := by
        unfold effectiveDate at hd
        rw [← f1] at hd
        exact (Option.some.inj hd).symm
      have hta : body.time = some a.time := by
        unfold timeChanged at htc
        simp only [Bool.and_eq_true] at htc
        rw [htc.1, if_pos rfl] at f2
        exact f2.symm
      unfold findActiveAtExcept at hnone
      rw [List.find?_eq_none] at hnone
      apply hnone y hy
      simp [hda, hta, hcl.1, hcl.2.1, hcl.2.2.2, hne]
    · simp only [htc, Bool.false_or, Bool.or_eq_true, beq_iff_eq, Bool.not_eq_true'] at hg
      have hat : a.time = r.time := by
        unfold timeChanged at htc
        by_cases ht : truthy body.time = true
        · simp only [ht, Bool.true_and, bne_iff_ne, ne_eq, not_not] at htc
          rw [ht, if_pos rfl, htc] at f2
          exact Option.some.inj f2
        · simp only [ht] at f2
          exact Option.some.inj (by simpa using f2)
      rcases hg with hg | hg
      · have had : a.date = r.date := by
          unfold effectiveDate at hg
          rw [hg] at f1
          exact Option.some.inj f1
        exact not_clashes_of_mem hc.1 (findById_mem_of_consistent hc hr) hy
          (fun e => hne e.symm)
          ⟨had ▸ hcl.1, hat ▸ hcl.2.1, hactive ▸ hcl.2.2.1, hcl.2.2.2⟩
      · have := hcl.2.2.1
        rw [hactive, hg] at this
        cases this

/-- What it means for an update to be guarded. -/
theorem guarded_update_iff (s : Store) (user : User) (id : Nat) (body : Body) :
    (Op.update user id body).guarded s = true ↔
      ((∃ e, (updateAppointment s user id body).2 = .error e) ∨
        ∃ r, findById s id = some r ∧
          (timeChanged r body = true ∨ effectiveDate r body = some r.date ∨
            r.isActive = false)) := by
  rcases updateAppointment_cases s user id body with ⟨e, h1⟩ | ⟨s', a, h1⟩
  · simp [Op.guarded, h1]
  · obtain ⟨r, hr, _⟩ := updateAppointment_ok h1
    simp only [Op.guarded, h1, hr, Bool.or_eq_true, beq_iff_eq, Bool.not_eq_true',
      Option.some.injEq, exists_eq_left', false_or, reduceCtorEq, exists_false]
    tauto

/-- What it means for a status request to be guarded. -/
theorem guarded_status_iff (s : Store) (id : Nat) (body : StatusBody) :
    (Op.status id body).guarded s = true ↔
      ((∃ e, (setStatus s id body).2 = .error e) ∨
        ∃ r st, findById s id = some r ∧ body.status = .valid st ∧
          (st.isActive = true → r.isActive = true)) := by
  rcases setStatus_cases s id body with ⟨e, h1⟩ | ⟨s', a, h1⟩
  · simp [Op.guarded, h1]
  · obtain ⟨r, hr, _⟩ := setStatus_ok h1
    cases hb : body.status with
    | absent => simp [Op.guarded, h1, hr, hb]
    | invalid => simp [Op.guarded, h1, hr, hb]
    | valid st =>
      simp only [Op.guarded, h1, hr, hb, reduceCtorEq, exists_false, false_or,
        Option.some.injEq, StatusField.valid.injEq, exists_and_left, exists_eq_left',
        Bool.or_eq_true, Bool.not_eq_true']
      cases hs : st.isActive <;> cases hq : r.isActive <;> simp

theorem consistent_step {s : Store} (hc : s.Consistent) (op : Op) (hg : op.guarded s = true) :
    (step s op).Consistent := by
  cases op with
  | create user body => exact consistent_create hc user body
  | update user id body => exact consistent_update hc user id body hg
  | status id body => exact consistent_status hc id body hg
  | delete user id => exact consistent_delete hc user id

theorem consistent_run (ops : List Op) :
    ∀ {s : Store}, s.Consistent → allGuarded s ops = true → (run s ops).Consistent := by
  induction ops with
  | nil => intro s hc _; exact hc
  | cons op ops ih =>
    intro s hc hg
    simp only [allGuarded, Bool.and_eq_true] at hg
    exact ih (consistent_step hc op hg.1) hg.2

/-- C1 (amended): slot exclusivity holds in every store reached from the empty
store by a finite sequence of create, update, status and delete requests,
executed one after another, in which every status request that is carried out
names one of the five statuses and does not take a record from a terminal
status to an active one, and no update that is carried out gives a pending or
approved record another date while its time is omitted, empty or unchanged; refused
requests are free.  In such a store every record has a stored status, so the
status that is stored is the status that is read. -/
theorem slot_exclusive_along_guarded_runs (ops : List Op)
    (hg : allGuarded Store.empty ops = true) :
    SlotExclusive (run Store.empty ops) ∧
      ∀ r ∈ (run Store.empty ops).docs, r.status ≠ none ∧ r.hydrate = r :=
  ⟨slotExclusive_of_consistent (consistent_run ops consistent_empty hg),
    fun r hr =>
      ⟨(consistent_run ops consistent_empty hg).2.2 r hr,
        hydrate_of_status ((consistent_run ops consistent_empty hg).2.2 r hr)⟩⟩

/-- C1, concrete check: a session of two bookings, a refused move of another
student's booking, a move to a free slot, an approval and a deletion keeps the
slots exclusive. -/
theorem slot_exclusive_along_guarded_runs_witness :
    allGuarded Store.empty guardedSession = true ∧
      (updateAppointment twoBooked bob 0 moveToMarch10).2 = .error .authorizationError ∧
      SlotExclusive (run Store.empty guardedSession) ∧
      (run Store.empty guardedSession).docs =
        [{ annRecord with status := some Status.approved, hodNotes := some "ok" }] :=
  ⟨by decide, by decide, (slot_exclusive_along_guarded_runs guardedSession (by decide)).1,
    by decide⟩

/-- C1, counterexample to the claim as stated: three sequences of requests from
the empty store end with two pending or approved records on 2025-03-10 at
09:00: one approves a rejected booking after the slot was taken again, one
updates a booking with only a new date, one unsets a status with a status
request that has no status, lets the slot be booked again and writes the first
booking back with an empty update. -/
theorem slot_exclusivity_broken :
    ¬ SlotExclusive (run Store.empty reactivation) ∧
      ¬ SlotExclusive (run Store.empty dateOnlyMove) ∧
      ¬ SlotExclusive (run Store.empty unsetThenRebook) :=
  ⟨fun h => absurd (h march10 "09:00") (by decide),
    fun h => absurd (h march10 "09:00") (by decide),
    fun h => absurd (h march10 "09:00") (by decide)⟩

/-- C10: the update handler at the failing input.  Slot exclusivity holds in
the store with Ann on 2025-03-10 and Bob on 2025-03-11, both pending at 09:00;
Bob's update with the date 2025-03-10 and no time succeeds, and afterwards
Ann's pending record has the date and time of the updated record. -/
theorem update_date_only_double_books :
    SlotExclusive twoBooked ∧
    updateAppointment twoBooked bob 1 moveToMarch10 =
      (twoBooked.replace bobMoved, .ok bobMoved) ∧
    bobMoved.isActive = true ∧
    annRecord ∈ (twoBooked.replace bobMoved).docs ∧ annRecord._id ≠ bobMoved._id ∧
    annRecord.isActive = true ∧ annRecord.date = bobMoved.date ∧
    annRecord.time = bobMoved.time :=
  ⟨slotExclusive_of_consistent
      (consistent_run [.create ann nineOnMarch10, .create bob nineOnMarch11]
        consistent_empty (by decide)),
    by decide, rfl, by decide, by decide, rfl, rfl, rfl⟩

/-! ## Every reachable store is well formed -/

theorem wellFormed_replace {s : Store} {a r : Appointment} {id : Nat} (hw : s.WellFormed)
    (hr : findById s id = some r) (hid : a._id = r._id) (hv : validate a.toDraft = some a) :
    (s.replace a).WellFormed := by
  have hlt : a._id < s.nextId := by
    obtain ⟨r0, h0, h1, _⟩ := findById_stored hr
    rw [hid, findById_id hr, ← h1]
    exact hw.1 r0 h0
  constructor
  · intro x hx
    unfold Store.replace at hx
    simp only [List.mem_map] at hx
    obtain ⟨y, hy, rfl⟩ := hx
    show _ < s.nextId
    split
    · exact hlt
    · exact hw.1 y hy
  · intro x hx
    unfold Store.replace at hx
    simp only [List.mem_map] at hx
    obtain ⟨y, hy, rfl⟩ := hx
    split
    · exact hv
    · exact hw.2 y hy

theorem wellFormed_step {s : Store} (hw : s.WellFormed) (op : Op) : (step s op).WellFormed := by
  cases op with
  | create user body =>
    show (createAppointment s user body).1.WellFormed
    rcases createAppointment_cases s user body with h1 | h1 | h1 | h1 | h1
    · rw [h1.2]; exact hw
    · rw [h1.2.2]; exact hw
    · rw [h1.2.2]; exact hw
    · rw [h1.2.2.2]; exact hw
    · obtain ⟨_, _, a, hv, hcr⟩ := h1
      rw [hcr]
      have htd := toDraft_of_validate hv
      have f0 := congrArg Draft._id htd
      simp only [Appointment.toDraft, ofStored_eq_valid, ofStored_inj, newAppointment] at f0
      constructor
      · intro x hx
        have hx' : x ∈ s.docs ++ [a] := hx
        show x._id < s.nextId + 1
        rw [List.mem_append, List.mem_singleton] at hx'
        rcases hx' with hx' | hx'
        · have := hw.1 x hx'; omega
        · rw [hx', f0]; omega
      · intro x hx
        have hx' : x ∈ s.docs ++ [a] := hx
        rw [List.mem_append, List.mem_singleton] at hx'
        rcases hx' with hx' | hx'
        · exact hw.2 x hx'
        · rw [hx', htd]; exact hv
  | update user id body =>
    show (updateAppointment s user id body).1.WellFormed
    rcases updateAppointment_cases s user id body with ⟨e, h1⟩ | ⟨s', a, h1⟩
    · rw [h1]; exact hw
    · obtain ⟨r, hr, htd, hs, _, hv⟩ := updateAppointment_ok h1
      rw [h1, hs]
      have f0 := congrArg Draft._id htd
      simp only [Appointment.toDraft, ofStored_eq_valid, ofStored_inj, applyUpdate] at f0
      exact wellFormed_replace hw hr f0 hv
  | status id body =>
    show (setStatus s id body).1.WellFormed
    rcases setStatus_cases s id body with ⟨e, h1⟩ | ⟨s', a, h1⟩
    · rw [h1]; exact hw
    · obtain ⟨r, hr, htd, hs, hv⟩ := setStatus_ok h1
      rw [h1, hs]
      have f0 := congrArg Draft._id htd
      simp only [Appointment.toDraft, ofStored_eq_valid, ofStored_inj, applyStatus] at f0
      exact wellFormed_replace hw hr f0 hv
  | delete user id =>
    show (deleteAppointment s user id).1.WellFormed
    rcases deleteAppointment_cases s user id with ⟨e, h1⟩ | h1
    · rw [h1]; exact hw
    · rw [h1]
      exact ⟨fun x hx => hw.1 x (List.mem_filter.1 hx).1,
        fun x hx => hw.2 x (List.mem_filter.1 hx).1⟩

/-- A document handed out by `findById` in a well-formed store is schema-valid. -/
theorem wellFormed_findById {s : Store} (hw : s.WellFormed) {id : Nat} {r : Appointment}
    (hr : findById s id = some r) : validate r.toDraft = some r := by
  obtain ⟨r0, h0, _, rfl⟩ := findById_stored hr
  exact validate_hydrate (hw.2 r0 h0)

/-- Every store reached from the empty one by any requests is well formed: the
ids are fresh and the documents are schema-valid. -/
theorem wellFormed_run (ops : List Op) : (run Store.empty ops).WellFormed := by
  have gen : ∀ (l : List Op) (s : Store), s.WellFormed → (run s l).WellFormed := by
    intro l
    induction l with
    | nil => intro s hw; exact hw
    | cons op l ih => intro s hw; exact ih (step s op) (wellFormed_step hw op)
  exact gen ops Store.empty ⟨fun r hr => (by cases hr), fun r hr => (by cases hr)⟩

end HodApp
